/-
Verification of the alert-correlation and response-recommendation engine.

The definitions below are shallow embeddings of the Python sources:
  * `BERTSeverity`   — `src/agents/bert_detection.py` (`BERTLogClassifier._get_severity`)
  * `Response`       — `src/agents/response_agent.py`
  * `Correlation`    — `src/agents/correlation.py` (`UnionFind`, `correlate_alerts`)

Machine floats carrying probabilities/confidences are modelled as rationals;
pandas data frames as lists of records; the external RoBERTa scorer as an
oracle function from the pair description text to a rational score.
-/
import Mathlib

namespace BERTSeverity

/-- High-risk threat classes, from `_get_severity`. -/
def highRisk : List String := ["ransomware", "malware", "data_exfil", "insider_threat"]

/-- Medium-risk threat classes, from `_get_severity`. -/
def mediumRisk : List String := ["brute_force", "phishing", "ddos"]

/-- Embeds `BERTLogClassifier._get_severity`: map (class, confidence) to a severity tier. -/
def getSeverity (bertClass : String) (confidence : ℚ) : String :=
  if bertClass ∈ highRisk then
    if confidence > 7/10 then "HIGH" else "MEDIUM"
  else if bertClass ∈ mediumRisk then
    if confidence > 7/10 then "MEDIUM" else "LOW"
  else
    "LOW"

/-- Numeric height of a severity tier: a larger number is a more severe tier.
`HIGH` is above `MEDIUM`, which is above `LOW`. -/
def severityHeight (s : String) : Nat :=
  if s = "HIGH" then 2 else if s = "MEDIUM" then 1 else 0

end BERTSeverity

namespace Response

/-- One incident row as consumed by `recommend_response`:
the fields of the data frame that the decision functions read. -/
structure IncidentRow where
  source_ip : String
  threat_type : String
  alert_count : Nat
  avg_confidence : ℚ
  severity : String
deriving Repr, DecidableEq

/-- The static `ACTIONS` table: action name ↦ (priority, automation). -/
def ACTIONS : List (String × Nat × String) :=
  [("BLOCK_IP", 1, "Can be automated"),
   ("ISOLATE_HOST", 1, "Can be automated"),
   ("ESCALATE", 2, "Semi-automated (alert)"),
   ("RESET_PASSWORD", 2, "Can be automated"),
   ("DISABLE_ACCOUNT", 1, "Can be automated"),
   ("MONITOR", 3, "Automated"),
   ("SCAN_SYSTEM", 2, "Can be automated"),
   ("BLOCK_URL", 2, "Can be automated"),
   ("RESTORE_BACKUP", 1, "Manual"),
   ("NOTIFY_LEGAL", 1, "Manual")]

/-- Embeds `ACTIONS.get(x, {}).get('priority', 3)`. -/
def actionPriority (a : String) : Nat :=
  ((ACTIONS.lookup a).map Prod.fst).getD 3

/-- Embeds `ACTIONS.get(x, {}).get('automation', 'Unknown')`. -/
def automationStatus (a : String) : String :=
  ((ACTIONS.lookup a).map (fun pr => pr.snd)).getD "Unknown"

/-- Embeds `_determine_primary_action`: ordered rule cascade, first match wins. -/
def determinePrimaryAction (row : IncidentRow) : String :=
  if row.threat_type = "ransomware" then
    "ISOLATE_HOST"
  else if row.threat_type = "malware" then
    if row.avg_confidence ≥ 95/100 then "ISOLATE_HOST" else "SCAN_SYSTEM"
  else if row.threat_type = "brute_force" then
    if row.alert_count ≥ 20 then "BLOCK_IP"
    else if row.alert_count ≥ 10 then "RESET_PASSWORD"
    else "MONITOR"
  else if row.threat_type = "phishing" then
    "BLOCK_URL"
  else if row.threat_type = "data_exfil" then
    "BLOCK_IP"
  else if row.threat_type = "insider_threat" then
    if row.avg_confidence ≥ 95/100 then "DISABLE_ACCOUNT" else "ESCALATE"
  else if row.threat_type = "ddos" then
    "BLOCK_IP"
  else if row.severity = "HIGH" then
    if row.avg_confidence ≥ 95/100 then "BLOCK_IP" else "ESCALATE"
  else if row.severity = "MEDIUM" then
    if row.alert_count ≥ 15 then "ESCALATE" else "MONITOR"
  else
    "MONITOR"

/-- Embeds `_determine_secondary_action`; `primary` is the already-computed
`primary_action` column of the row. -/
def determineSecondaryAction (row : IncidentRow) (primary : String) : String :=
  if row.threat_type = "ransomware" then
    if primary ≠ "NOTIFY_LEGAL" then "NOTIFY_LEGAL" else "RESTORE_BACKUP"
  else if row.threat_type = "data_exfil" then
    if primary ≠ "ESCALATE" then "ESCALATE" else "NOTIFY_LEGAL"
  else if row.threat_type = "malware" then
    if primary ≠ "SCAN_SYSTEM" then "SCAN_SYSTEM" else "ESCALATE"
  else if row.threat_type = "brute_force" ∧ row.alert_count ≥ 10 then
    if primary ≠ "RESET_PASSWORD" then "RESET_PASSWORD" else "MONITOR"
  else if row.threat_type = "insider_threat" then
    "ESCALATE"
  else if row.severity = "HIGH" then
    if primary ≠ "ESCALATE" then "ESCALATE" else "MONITOR"
  else
    "MONITOR"

/-- One output row of `recommend_response`: input row plus the added columns. -/
structure ResponseRow where
  row : IncidentRow
  primary_action : String
  secondary_action : String
  action_priority : Nat
  automation_status : String
deriving Repr, DecidableEq

/-- Compute the added columns for one row (the `apply` calls of
`recommend_response`). -/
def attachActions (row : IncidentRow) : ResponseRow :=
  let p := determinePrimaryAction row
  { row := row
    primary_action := p
    secondary_action := determineSecondaryAction row p
    action_priority := actionPriority p
    automation_status := automationStatus p }

/-- Embeds `recommend_response`: empty input short-circuits to an empty frame;
otherwise add the action columns and sort by `action_priority` ascending. -/
def recommendResponse (rows : List IncidentRow) : List ResponseRow :=
  if rows = [] then []
  else
    List.insertionSort (fun a b => a.action_priority ≤ b.action_priority)
      (rows.map attachActions)

/-- The labels that have a label-specific rule in `_determine_primary_action`. -/
def recognizedLabels : List String :=
  ["ransomware", "malware", "brute_force", "phishing", "data_exfil",
   "insider_threat", "ddos"]

/-- The severity-fallback / default portion of the cascade
(`_determine_primary_action`, final branches). -/
def severityFallback (row : IncidentRow) : String :=
  if row.severity = "HIGH" then
    if row.avg_confidence ≥ 95/100 then "BLOCK_IP" else "ESCALATE"
  else if row.severity = "MEDIUM" then
    if row.alert_count ≥ 15 then "ESCALATE" else "MONITOR"
  else
    "MONITOR"

end Response

namespace Correlation

/-- One already-classified alert row as consumed by `correlate_alerts`, after the
ingestion layer has resolved the column names: `timestamp` (seconds),
the source-identity column, the user column, the threat-label column and the
confidence column, plus the derived `severity`. -/
structure Alert where
  timestamp : Nat
  source_ip : String
  user : String
  threat : String
  confidence : ℚ
  severity : String
deriving Repr, DecidableEq

/-- Column fallback `ip_col = "source_ip" if "source_ip" in data.columns else "ip"`. -/
def ipColumn (cols : List String) : String :=
  if "source_ip" ∈ cols then "source_ip" else "ip"

/-- Column fallback `threat_col = "bert_class" if "bert_class" in data.columns
else "threat_type"`. -/
def threatColumn (cols : List String) : String :=
  if "bert_class" ∈ cols then "bert_class" else "threat_type"

/-- Column fallback `confidence_col = "bert_confidence" if "bert_confidence" in
data.columns else "avg_confidence"`. -/
def confidenceColumn (cols : List String) : String :=
  if "bert_confidence" ∈ cols then "bert_confidence" else "avg_confidence"

/-- Lexicographic code-point comparison of character lists — the order Python
and pandas use on strings. -/
def charsLe : List Char → List Char → Bool
  | [], _ => true
  | _ :: _, [] => false
  | c :: cs, d :: ds =>
      if c.toNat < d.toNat then true
      else if d.toNat < c.toNat then false
      else charsLe cs ds

/-- Lexicographic code-point order on strings. -/
def strLeB (a b : String) : Bool := charsLe a.data b.data

/-- Keep the first value of maximal count while scanning `l` left to right,
starting from `best`. -/
def modeScan (cnt : String → Nat) : List String → String → String
  | [], best => best
  | w :: ws, best => modeScan cnt ws (if cnt best < cnt w then w else best)

/-- pandas `Series.mode()[0]`: the values with maximal multiplicity, sorted
ascending, first one taken — i.e. the smallest value among those with maximal
count. Operationally: scan the distinct values in ascending order keeping the
first one whose count is maximal. -/
def pdMode (xs : List String) : String :=
  match List.insertionSort (fun a b => strLeB a b = true) xs.dedup with
  | [] => ""
  | v :: vs => modeScan (fun w => xs.count w) vs v

/-- Modelled from the spec: "most frequent value among members, ties broken by
the member with the smallest original index" — the first value in member order
whose multiplicity is maximal. -/
def specModeByFirstIndex (xs : List String) : String :=
  match xs with
  | [] => ""
  | v :: vs => modeScan (fun w => xs.count w) vs v

/-- Predicate: `v` has maximal multiplicity in `xs` and is the least such value — the
element pandas `mode()[0]` selects. -/
def smallestMaximalCount (xs : List String) (v : String) : Prop :=
  v ∈ xs ∧ (∀ w ∈ xs, xs.count w ≤ xs.count v) ∧
    (∀ w ∈ xs, xs.count w = xs.count v → strLeB v w = true)

/-- Embeds `_build_pair_text`. -/
def pairText (threat ipa ipb : String) (minutes : Nat) : String :=
  "Threat " ++ threat ++ " between " ++ ipa ++ " and " ++ ipb ++
    ". Time difference " ++ toString minutes ++ " minutes."

/-- The candidate record emitted for one surviving pair: the two positions in
the sorted threat frame and the description text handed to the scorer. -/
structure Cand where
  i : Nat
  j : Nat
  text : String
deriving Repr, DecidableEq

/-- The inner `for j in range(i + 1, len(group))` scan for one fixed `i`:
emit a pair for each following row until the first row whose time delta
exceeds the window (`break`), computing the delta in whole minutes. -/
def scanFrom (W : Nat) (a : Nat × Alert) (rest : List (Nat × Alert)) : List Cand :=
  (rest.takeWhile (fun b => b.2.timestamp - a.2.timestamp ≤ W)).map
    (fun b =>
      ⟨a.1, b.1,
        pairText a.2.threat a.2.source_ip b.2.source_ip
          ((b.2.timestamp - a.2.timestamp) / 60)⟩)

/-- The nested candidate-generation loops over one label group (rows tagged
with their position in the sorted threat frame). -/
def scanPairs (W : Nat) : List (Nat × Alert) → List Cand
  | [] => []
  | a :: rest => scanFrom W a rest ++ scanPairs W rest

/-- Modelled from the spec: exhaustive all-pairs filtering by window — for
every `i` consider every later `j` and keep exactly the pairs with
`time_delta ≤ W`. -/
def exhaustivePairs (W : Nat) : List (Nat × Alert) → List Cand
  | [] => []
  | a :: rest =>
      (rest.filter (fun b => b.2.timestamp - a.2.timestamp ≤ W)).map
        (fun b =>
          ⟨a.1, b.1,
            pairText a.2.threat a.2.source_ip b.2.source_ip
              ((b.2.timestamp - a.2.timestamp) / 60)⟩) ++
        exhaustivePairs W rest

/-- Embeds `cluster_df["timestamp"].min()` (clusters are never empty; 0 for `[]`). -/
def minTs : List Nat → Nat
  | [] => 0
  | t :: ts => ts.foldl Nat.min t

/-- Embeds `.floor(time_window)`: round a timestamp down to the window granularity. -/
def floorTo (w t : Nat) : Nat := if w = 0 then t else w * (t / w)

/-- One aggregated incident record as built by `correlate_alerts`. -/
structure Incident where
  source_ip : String
  time_window : Nat
  threat_type : String
  alert_count : Nat
  avg_confidence : ℚ
  severity : String
  users : List String
  user_count : Nat
deriving Repr, DecidableEq

/-- The per-cluster aggregation body of the incident loop. Python's
`list(set(...))` for `users` has no specified order; it is modelled as `dedup`
(first-occurrence order). -/
def aggregateCluster (W : Nat) (members : List Alert) : Incident :=
  { source_ip := pdMode (members.map (fun a => a.source_ip))
    time_window := floorTo W (minTs (members.map (fun a => a.timestamp)))
    threat_type := pdMode (members.map (fun a => a.threat))
    alert_count := members.length
    avg_confidence := (members.map (fun a => a.confidence)).sum / (members.length : ℚ)
    severity := pdMode (members.map (fun a => a.severity))
    users := (members.map (fun a => a.user)).dedup
    user_count := ((members.map (fun a => a.user)).dedup).length }

/-- Embeds `threats = data[data[threat_col] != "normal"]` followed by
`.sort_values("timestamp").reset_index(drop=True)`. -/
def threatsOf (alerts : List Alert) : List Alert :=
  List.insertionSort (fun a b => a.timestamp ≤ b.timestamp)
    (alerts.filter (fun a => a.threat ≠ "normal"))

/-- The group keys of `threats.groupby(threat_col)`: distinct labels in
ascending order (pandas sorts group keys). -/
def labelsOf (ts : List Alert) : List String :=
  List.insertionSort (fun a b => strLeB a b = true) ((ts.map (fun a => a.threat)).dedup)

/-- One label group, rows tagged with their position in the sorted threat
frame (the `index` column after `reset_index`). The group inherits the
frame's timestamp order, so the group-level `sort_values("timestamp")` is the
identity here. -/
def groupFor (ts : List Alert) (l : String) : List (Nat × Alert) :=
  ts.enum.filter (fun p => p.2.threat = l)

/-- All candidate pairs of the batch: the grouped nested scans. -/
def candidatePairs (W : Nat) (ts : List Alert) : List Cand :=
  (labelsOf ts).bind (fun l => scanPairs W (groupFor ts l))

/-- The accepted pairs: `prob >= threshold`. The external RoBERTa scorer is an
oracle `score` from the pair text to a probability. -/
def acceptedPairs (W : Nat) (ts : List Alert) (score : String → ℚ)
    (threshold : ℚ) : List Cand :=
  (candidatePairs W ts).filter (fun c => threshold ≤ score c.text)

/-- Embeds `UnionFind.__init__`: `parent = list(range(size))`, `rank = [0] * size`. -/
structure UF where
  parent : List Nat
  rank : List Nat
deriving Repr, DecidableEq

/-- Fresh union-find over `n` elements. -/
def UF.init (n : Nat) : UF := ⟨List.range n, List.replicate n 0⟩

/-- Embeds `UnionFind.find` with path compression. The Python recursion carries no
fuel; here structural fuel (instantiated with the array length, which always
suffices — see `dist_le_length`) makes it total. -/
def findAux : Nat → List Nat → Nat → List Nat × Nat
  | 0, p, x => (p, x)
  | fuel+1, p, x =>
    let px := p.getD x x
    if px = x then (p, x)
    else
      let pr := findAux fuel p px
      (pr.1.set x pr.2, pr.2)

/-- Embeds `UnionFind.find` on the wrapped state. -/
def UF.find (s : UF) (x : Nat) : UF × Nat :=
  let pr := findAux s.parent.length s.parent x
  (⟨pr.1, s.rank⟩, pr.2)

/-- Embeds `UnionFind.union` by rank, exactly the Python branch structure. -/
def UF.union (s : UF) (x y : Nat) : UF :=
  let f1 := s.find x
  let f2 := f1.1.find y
  let s2 := f2.1
  let rx := f1.2
  let ry := f2.2
  if rx = ry then s2
  else if s2.rank.getD rx 0 < s2.rank.getD ry 0 then
    ⟨s2.parent.set rx ry, s2.rank⟩
  else if s2.rank.getD ry 0 < s2.rank.getD rx 0 then
    ⟨s2.parent.set ry rx, s2.rank⟩
  else
    ⟨s2.parent.set ry rx, s2.rank.set rx (s2.rank.getD rx 0 + 1)⟩

/-- The acceptance loop: `for (idx_a, idx_b), prob in zip(...): if prob >=
threshold: uf.union(...)` (the accepted filter is applied by the caller). -/
def processPairs (s : UF) (prs : List (Nat × Nat)) : UF :=
  prs.foldl (fun t pr => t.union pr.1 pr.2) s

/-- Embeds `clusters.setdefault(root, []).append(pos)` on an insertion-ordered dict
modelled as an association list. -/
def setdefaultAppend (acc : List (Nat × List Nat)) (key pos : Nat) :
    List (Nat × List Nat) :=
  if key ∈ acc.map Prod.fst then
    acc.map (fun kv => if kv.1 = key then (kv.1, kv.2 ++ [pos]) else kv)
  else
    acc ++ [(key, [pos])]

/-- The cluster-collection loop: `for pos in range(len(threats)): root =
uf.find(pos); clusters.setdefault(root, []).append(pos)`. -/
def clustersLoop : List Nat → UF → List (Nat × List Nat) →
    List (Nat × List Nat) × UF
  | [], s, acc => (acc, s)
  | pos :: rest, s, acc =>
      let fr := s.find pos
      clustersLoop rest fr.1 (setdefaultAppend acc fr.2 pos)

/-- The cluster map (root key ↦ member positions) computed by
`correlate_alerts` after the union loop. -/
def clustersOf (W : Nat) (ts : List Alert) (score : String → ℚ)
    (threshold : ℚ) : List (Nat × List Nat) :=
  let accepted := acceptedPairs W ts score threshold
  let uf := processPairs (UF.init ts.length) (accepted.map (fun c => (c.i, c.j)))
  (clustersLoop (List.range ts.length) uf []).1

/-- One parent-pointer dereference: `self.parent[x]` (an out-of-range read,
which the Python code never performs, returns the index itself). -/
def pstep (p : List Nat) (i : Nat) : Nat := p.getD i i

/-- Predicate: `i` is a union-find root: `self.parent[i] == i`. -/
def IsRootP (p : List Nat) (i : Nat) : Prop := pstep p i = i

instance (p : List Nat) (i : Nat) : Decidable (IsRootP p i) := Nat.decEq _ _

/-- Iterated parent dereference. -/
def iterP (p : List Nat) : Nat → Nat → Nat
  | 0, i => i
  | k + 1, i => iterP p k (pstep p i)

/-- The parent chain from `i` eventually reaches a root. -/
def Reaches (p : List Nat) (i : Nat) : Prop := ∃ k, IsRootP p (iterP p k i)

/-- Fuel-bounded root computation without path compression — the reference
semantics of `find`. -/
def rootD (p : List Nat) : Nat → Nat → Nat
  | 0, i => i
  | fuel + 1, i => if pstep p i = i then i else rootD p fuel (pstep p i)

/-- The root of `i`; fuel equal to the array length always suffices. -/
def rootOf (p : List Nat) (i : Nat) : Nat := rootD p p.length i

/-- Parent-array well-formedness: in-range entries point in range, and every
chain reaches a root (no cycles other than self-loops). -/
def InvP (p : List Nat) : Prop :=
  (∀ i, i < p.length → pstep p i < p.length) ∧ ∀ i, Reaches p i

/-- Well-formedness of a union-find state. -/
def UFInv (s : UF) : Prop := InvP s.parent

/-- Root of `i` in a union-find state. -/
def rootU (s : UF) (i : Nat) : Nat := rootOf s.parent i

/-- Embeds the `severity_order` mapping; a severity outside the map becomes NaN in
pandas and sorts last — modelled as rank 3. -/
def severityRank (s : String) : Nat :=
  if s = "HIGH" then 0 else if s = "MEDIUM" then 1 else if s = "LOW" then 2 else 3

/-- Embeds `sort_values(["severity_rank", "alert_count"], ascending=[True, False])`. -/
def sortIncidents (incs : List Incident) : List Incident :=
  List.insertionSort
    (fun a b => severityRank a.severity < severityRank b.severity ∨
      (severityRank a.severity = severityRank b.severity ∧
        b.alert_count ≤ a.alert_count))
    incs

/-- Embeds `correlate_alerts` end to end: empty batch → empty; all-normal batch →
empty; no candidate pair → empty; otherwise accept pairs, union, collect
clusters, aggregate each cluster and sort the incident frame. -/
def correlateAlerts (alerts : List Alert) (W : Nat) (score : String → ℚ)
    (threshold : ℚ) : List Incident :=
  if alerts = [] then []
  else
    let ts := threatsOf alerts
    if ts = [] then []
    else
      let cands := candidatePairs W ts
      if cands = [] then []
      else
        sortIncidents
          ((clustersOf W ts score threshold).map
            (fun kv => aggregateCluster W (kv.2.filterMap ts.get?)))

end Correlation

/-- C9: the Severity Assigner is monotonic in confidence: for a fixed label and
confidences `c1 ≤ c2` in `[0,1]`, the tier assigned at `c2` is never ranked
lower (less severe) than the tier assigned at `c1`. -/
theorem severity_monotone_in_confidence (label : String) (c1 c2 : ℚ)
    (h0 : 0 ≤ c1) (h12 : c1 ≤ c2) (h1 : c2 ≤ 1) :
    BERTSeverity.severityHeight (BERTSeverity.getSeverity label c1) ≤
      BERTSeverity.severityHeight (BERTSeverity.getSeverity label c2) := by
  unfold BERTSeverity.getSeverity
  by_cases hh : label ∈ BERTSeverity.highRisk
  · simp only [hh, if_true]
    by_cases hc : c1 > 7/10
    · have hc2 : c2 > 7/10 := lt_of_lt_of_le hc h12
      simp [hc, hc2]
    · by_cases hc2 : c2 > 7/10 <;> simp [hc, hc2, BERTSeverity.severityHeight]
  · by_cases hm : label ∈ BERTSeverity.mediumRisk
    · simp only [hh, hm, if_true, if_false]
      by_cases hc : c1 > 7/10
      · have hc2 : c2 > 7/10 := lt_of_lt_of_le hc h12
        simp [hc, hc2]
      · by_cases hc2 : c2 > 7/10 <;> simp [hc, hc2, BERTSeverity.severityHeight]
    · simp [hh, hm]

/-- Witness for C9 at label `"malware"`, `c1 = 1/2`, `c2 = 95/100`. -/
theorem severity_monotone_in_confidence_witness :
    (0 : ℚ) ≤ 1/2 ∧ (1/2 : ℚ) ≤ 95/100 ∧ (95/100 : ℚ) ≤ 1 ∧
      BERTSeverity.severityHeight (BERTSeverity.getSeverity "malware" (1/2)) ≤
        BERTSeverity.severityHeight (BERTSeverity.getSeverity "malware" (95/100)) :=
  ⟨by norm_num, by norm_num, by norm_num,
    severity_monotone_in_confidence "malware" (1/2) (95/100)
      (by norm_num) (by norm_num) (by norm_num)⟩

/-- C4: every `ransomware` incident, regardless of confidence, severity or
alert count, gets `primary_action = ISOLATE_HOST` with `action_priority = 1`
and `secondary_action = NOTIFY_LEGAL`. -/
theorem ransomware_response (row : Response.IncidentRow)
    (h : row.threat_type = "ransomware") :
    (Response.attachActions row).primary_action = "ISOLATE_HOST" ∧
      (Response.attachActions row).action_priority = 1 ∧
      (Response.attachActions row).secondary_action = "NOTIFY_LEGAL" := by
  unfold Response.attachActions Response.determinePrimaryAction
    Response.determineSecondaryAction
  simp only [h]
  exact ⟨rfl, rfl, rfl⟩

/-- Witness for C4: the spec's scenario row (single `ransomware` alert,
`avg_confidence = 0.999`, `severity = HIGH`). -/
theorem ransomware_response_witness :
    (Response.IncidentRow.mk "10.0.0.1" "ransomware" 1 (999/1000) "HIGH").threat_type
        = "ransomware" ∧
      (Response.attachActions
        (Response.IncidentRow.mk "10.0.0.1" "ransomware" 1 (999/1000) "HIGH")).primary_action
        = "ISOLATE_HOST" ∧
      (Response.attachActions
        (Response.IncidentRow.mk "10.0.0.1" "ransomware" 1 (999/1000) "HIGH")).action_priority
        = 1 ∧
      (Response.attachActions
        (Response.IncidentRow.mk "10.0.0.1" "ransomware" 1 (999/1000) "HIGH")).secondary_action
        = "NOTIFY_LEGAL" := by
  refine ⟨rfl, ?_⟩
  have h := ransomware_response
    (Response.IncidentRow.mk "10.0.0.1" "ransomware" 1 (999/1000) "HIGH") rfl
  exact ⟨h.1, h.2.1, h.2.2⟩

/-- C8: for `brute_force` incidents the primary action is `BLOCK_IP` when
`alert_count ≥ 20`, `RESET_PASSWORD` when `10 ≤ alert_count < 20`, and
`MONITOR` when `alert_count < 10`. -/
theorem brute_force_response (row : Response.IncidentRow)
    (h : row.threat_type = "brute_force") :
    (20 ≤ row.alert_count → Response.determinePrimaryAction row = "BLOCK_IP") ∧
      (10 ≤ row.alert_count → row.alert_count < 20 →
        Response.determinePrimaryAction row = "RESET_PASSWORD") ∧
      (row.alert_count < 10 → Response.determinePrimaryAction row = "MONITOR") := by
  unfold Response.determinePrimaryAction
  refine ⟨fun h20 => ?_, fun h10 h20 => ?_, fun h10 => ?_⟩
  · simp [h, h20]
  · simp [h, h10, Nat.not_le.mpr h20]
  · simp [h, Nat.not_le.mpr h10,
      Nat.not_le.mpr (Nat.lt_trans h10 (by norm_num : (10:ℕ) < 20))]

/-- Witness for C8 at the spec's scenario counts 25, 12 and 4. -/
theorem brute_force_response_witness :
    Response.determinePrimaryAction
        (Response.IncidentRow.mk "a" "brute_force" 25 (1/2) "MEDIUM") = "BLOCK_IP" ∧
      Response.determinePrimaryAction
        (Response.IncidentRow.mk "a" "brute_force" 12 (1/2) "MEDIUM") = "RESET_PASSWORD" ∧
      Response.determinePrimaryAction
        (Response.IncidentRow.mk "a" "brute_force" 4 (1/2) "MEDIUM") = "MONITOR" :=
  ⟨(brute_force_response _ rfl).1 (by norm_num),
    (brute_force_response _ rfl).2.1 (by norm_num) (by norm_num),
    (brute_force_response _ rfl).2.2 (by norm_num)⟩

/-- C5 counterexample: an incident with the unrecognized label `"alien"` and
severity `HIGH` yields `ESCALATE`, not the default `MONITOR`, so an
unrecognized label does not always fall through to `MONITOR`. -/
theorem unknown_label_not_always_monitor :
    (Response.IncidentRow.mk "9.9.9.9" "alien" 1 (1/2) "HIGH").threat_type
        ∉ Response.recognizedLabels ∧
      Response.determinePrimaryAction
        (Response.IncidentRow.mk "9.9.9.9" "alien" 1 (1/2) "HIGH") = "ESCALATE" ∧
      ("ESCALATE" : String) ≠ "MONITOR" :=
  ⟨by decide,
    by
      norm_num [Response.determinePrimaryAction]
      decide,
    by decide⟩

/-- C5 (amended): an unrecognized label never raises — `_determine_primary_action`
is total on it and its result is exactly the severity-fallback / default branch
(`MONITOR` only when that fallback yields `MONITOR`). -/
theorem unknown_label_falls_to_severity_fallback (row : Response.IncidentRow)
    (h : row.threat_type ∉ Response.recognizedLabels) :
    Response.determinePrimaryAction row = Response.severityFallback row := by
  simp only [Response.recognizedLabels, List.mem_cons, List.not_mem_nil, or_false,
    not_or] at h
  obtain ⟨h1, h2, h3, h4, h5, h6, h7⟩ := h
  unfold Response.determinePrimaryAction Response.severityFallback
  simp [h1, h2, h3, h4, h5, h6, h7]

/-- Witness for the amended C5 at a concrete unrecognized label. -/
theorem unknown_label_falls_to_severity_fallback_witness :
    (Response.IncidentRow.mk "9.9.9.9" "cryptomining" 3 (1/2) "MEDIUM").threat_type
        ∉ Response.recognizedLabels ∧
      Response.determinePrimaryAction
          (Response.IncidentRow.mk "9.9.9.9" "cryptomining" 3 (1/2) "MEDIUM") =
        Response.severityFallback
          (Response.IncidentRow.mk "9.9.9.9" "cryptomining" 3 (1/2) "MEDIUM") :=
  ⟨by decide,
    unknown_label_falls_to_severity_fallback
      (Response.IncidentRow.mk "9.9.9.9" "cryptomining" 3 (1/2) "MEDIUM") (by decide)⟩

/-- C10: on a non-empty input, `recommend_response` returns exactly the input
rows (as a permutation, with the action columns attached) re-sorted into
non-decreasing `action_priority` order. -/
theorem recommend_response_sorted_by_priority (rows : List Response.IncidentRow)
    (h : rows ≠ []) :
    ((Response.recommendResponse rows).map Response.ResponseRow.row).Perm rows ∧
      List.Sorted (fun a b => a.action_priority ≤ b.action_priority)
        (Response.recommendResponse rows) := by
  unfold Response.recommendResponse
  rw [if_neg h]
  constructor
  · refine (((List.perm_insertionSort _ _).map Response.ResponseRow.row)).trans ?_
    rw [List.map_map]
    have hid : Response.ResponseRow.row ∘ Response.attachActions = id := rfl
    rw [hid, List.map_id]
  · haveI : IsTotal Response.ResponseRow
        (fun a b => a.action_priority ≤ b.action_priority) :=
      ⟨fun a b => Nat.le_total _ _⟩
    haveI : IsTrans Response.ResponseRow
        (fun a b => a.action_priority ≤ b.action_priority) :=
      ⟨fun a b c hab hbc => Nat.le_trans hab hbc⟩
    exact List.sorted_insertionSort _ _

/-- Witness for C10 on a concrete two-incident batch. -/
theorem recommend_response_sorted_by_priority_witness :
    ([Response.IncidentRow.mk "a" "brute_force" 4 (1/2) "MEDIUM",
      Response.IncidentRow.mk "b" "ransomware" 1 (999/1000) "HIGH"] ≠
        ([] : List Response.IncidentRow)) ∧
      (((Response.recommendResponse
          [Response.IncidentRow.mk "a" "brute_force" 4 (1/2) "MEDIUM",
           Response.IncidentRow.mk "b" "ransomware" 1 (999/1000) "HIGH"]).map
            Response.ResponseRow.row).Perm
        [Response.IncidentRow.mk "a" "brute_force" 4 (1/2) "MEDIUM",
         Response.IncidentRow.mk "b" "ransomware" 1 (999/1000) "HIGH"] ∧
      List.Sorted (fun a b => a.action_priority ≤ b.action_priority)
        (Response.recommendResponse
          [Response.IncidentRow.mk "a" "brute_force" 4 (1/2) "MEDIUM",
           Response.IncidentRow.mk "b" "ransomware" 1 (999/1000) "HIGH"])) :=
  ⟨by simp,
    recommend_response_sorted_by_priority
      [Response.IncidentRow.mk "a" "brute_force" 4 (1/2) "MEDIUM",
       Response.IncidentRow.mk "b" "ransomware" 1 (999/1000) "HIGH"] (by simp)⟩

/-- In a list where the predicate is downward closed along the order of
elements, stopping at the first failure (`takeWhile`) keeps exactly the
elements that exhaustive filtering keeps. -/
theorem takeWhile_eq_filter_of_closed {α : Type} (p : α → Bool) :
    ∀ l : List α, l.Pairwise (fun x y => p y = true → p x = true) →
      l.takeWhile p = l.filter p
  | [], _ => rfl
  | x :: xs, h => by
    rw [List.pairwise_cons] at h
    by_cases hp : p x = true
    · rw [List.takeWhile_cons_of_pos hp, List.filter_cons_of_pos hp,
        takeWhile_eq_filter_of_closed p xs h.2]
    · rw [List.takeWhile_cons_of_neg hp, List.filter_cons_of_neg hp]
      have hnil : xs.filter p = [] := by
        rw [List.filter_eq_nil]
        intro y hy hpy
        exact hp (h.1 y hy hpy)
      rw [hnil]

/-- C3: on a timestamp-sorted label group, the early-break scan (inner loop
stopping at the first `j` whose delta exceeds `W`) emits exactly the pairs that
exhaustive all-pairs filtering by `time_delta ≤ W` emits — the same list, so a
pair with `time_delta = W` is kept and one with `time_delta > W` is dropped. -/
theorem scan_pairs_eq_exhaustive (W : Nat) (g : List (Nat × Correlation.Alert))
    (hs : List.Sorted (fun a b => a.2.timestamp ≤ b.2.timestamp) g) :
    Correlation.scanPairs W g = Correlation.exhaustivePairs W g := by
  induction g with
  | nil => rfl
  | cons a rest ih =>
    rw [List.sorted_cons] at hs
    show Correlation.scanFrom W a rest ++ Correlation.scanPairs W rest = _
    unfold Correlation.exhaustivePairs Correlation.scanFrom
    rw [ih hs.2]
    congr 2
    apply takeWhile_eq_filter_of_closed
    refine hs.2.imp ?_
    intro x y hxy hpy
    simp only [decide_eq_true_eq] at hpy ⊢
    exact le_trans (Nat.sub_le_sub_right hxy _) hpy

/-- Witness for C3: a group with deltas exactly `W` (kept) and `W + 1`
(dropped past the break). -/
theorem scan_pairs_eq_exhaustive_witness :
    List.Sorted (fun a b => a.2.timestamp ≤ b.2.timestamp)
        [((0 : Nat), Correlation.Alert.mk 0 "a" "u" "brute_force" 1 "MEDIUM"),
         ((1 : Nat), Correlation.Alert.mk 300 "b" "u" "brute_force" 1 "MEDIUM"),
         ((2 : Nat), Correlation.Alert.mk 301 "c" "u" "brute_force" 1 "MEDIUM")] ∧
      Correlation.scanPairs 300
          [((0 : Nat), Correlation.Alert.mk 0 "a" "u" "brute_force" 1 "MEDIUM"),
           ((1 : Nat), Correlation.Alert.mk 300 "b" "u" "brute_force" 1 "MEDIUM"),
           ((2 : Nat), Correlation.Alert.mk 301 "c" "u" "brute_force" 1 "MEDIUM")] =
        Correlation.exhaustivePairs 300
          [((0 : Nat), Correlation.Alert.mk 0 "a" "u" "brute_force" 1 "MEDIUM"),
           ((1 : Nat), Correlation.Alert.mk 300 "b" "u" "brute_force" 1 "MEDIUM"),
           ((2 : Nat), Correlation.Alert.mk 301 "c" "u" "brute_force" 1 "MEDIUM")] :=
  ⟨by
      simp [List.sorted_cons],
    scan_pairs_eq_exhaustive 300 _ (by simp [List.sorted_cons])⟩

/-- C7 counterexample: the engine's column selection differs depending on
whether the alternate model column names are present, so its behaviour is not
defined only over one canonical set of field names. -/
theorem engine_branches_on_alternate_columns :
    Correlation.threatColumn ["timestamp", "bert_class", "threat_type"] ≠
        Correlation.threatColumn ["timestamp", "threat_type"] ∧
      Correlation.ipColumn ["timestamp", "ip"] ≠
        Correlation.ipColumn ["timestamp", "source_ip"] ∧
      Correlation.confidenceColumn ["avg_confidence"] ≠
        Correlation.confidenceColumn ["bert_confidence"] := by
  refine ⟨?_, ?_, ?_⟩ <;> decide

/-- C7 (amended): the engine does special-case alternate field names — it
reads `source_ip`, `bert_class` and `bert_confidence` when those columns are
present and falls back to `ip`, `threat_type` and `avg_confidence` when they
are not. -/
theorem column_fallback_prefers_model_columns (cols : List String) :
    ("source_ip" ∈ cols → Correlation.ipColumn cols = "source_ip") ∧
      ("source_ip" ∉ cols → Correlation.ipColumn cols = "ip") ∧
      ("bert_class" ∈ cols → Correlation.threatColumn cols = "bert_class") ∧
      ("bert_class" ∉ cols → Correlation.threatColumn cols = "threat_type") ∧
      ("bert_confidence" ∈ cols →
        Correlation.confidenceColumn cols = "bert_confidence") ∧
      ("bert_confidence" ∉ cols →
        Correlation.confidenceColumn cols = "avg_confidence") := by
  unfold Correlation.ipColumn Correlation.threatColumn Correlation.confidenceColumn
  exact ⟨fun h => if_pos h, fun h => if_neg h, fun h => if_pos h,
    fun h => if_neg h, fun h => if_pos h, fun h => if_neg h⟩

/-- Witness for the amended C7 on a frame with only the fallback columns. -/
theorem column_fallback_prefers_model_columns_witness :
    ("source_ip" ∉ (["timestamp", "ip", "threat_type", "avg_confidence"] : List String)) ∧
      Correlation.ipColumn ["timestamp", "ip", "threat_type", "avg_confidence"] = "ip" ∧
      Correlation.threatColumn ["timestamp", "ip", "threat_type", "avg_confidence"] =
        "threat_type" ∧
      Correlation.confidenceColumn ["timestamp", "ip", "threat_type", "avg_confidence"] =
        "avg_confidence" :=
  ⟨by decide,
    (column_fallback_prefers_model_columns _).2.1 (by decide),
    (column_fallback_prefers_model_columns _).2.2.2.1 (by decide),
    (column_fallback_prefers_model_columns _).2.2.2.2.2 (by decide)⟩

/-- The comparison `charsLe` is reflexive. -/
theorem charsLe_refl : ∀ l : List Char, Correlation.charsLe l l = true
  | [] => rfl
  | c :: cs => by
    unfold Correlation.charsLe
    simp [charsLe_refl cs]

/-- The comparison `charsLe` is total. -/
theorem charsLe_total : ∀ l m : List Char,
    Correlation.charsLe l m = true ∨ Correlation.charsLe m l = true
  | [], _ => Or.inl rfl
  | _ :: _, [] => Or.inr rfl
  | c :: cs, d :: ds => by
    unfold Correlation.charsLe
    by_cases h1 : c.toNat < d.toNat
    · exact Or.inl (by simp [h1])
    · by_cases h2 : d.toNat < c.toNat
      · exact Or.inr (by simp [h2, h1])
      · simpa [h1, h2] using charsLe_total cs ds

/-- The comparison `charsLe` is transitive. -/
theorem charsLe_trans : ∀ l m n : List Char,
    Correlation.charsLe l m = true → Correlation.charsLe m n = true →
      Correlation.charsLe l n = true
  | [], _, _, _, _ => rfl
  | _ :: _, [], _, h, _ => by simp [Correlation.charsLe] at h
  | _ :: _, _ :: _, [], _, h => by simp [Correlation.charsLe] at h
  | c :: cs, d :: ds, e :: es, h1, h2 => by
    unfold Correlation.charsLe at h1 h2 ⊢
    by_cases hcd : c.toNat < d.toNat
    · by_cases hde : d.toNat < e.toNat
      · simp [Nat.lt_trans hcd hde]
      · by_cases hed : e.toNat < d.toNat
        · simp [hde, hed] at h2
        · have : d.toNat = e.toNat := by omega
          simp [this ▸ hcd]
    · by_cases hdc : d.toNat < c.toNat
      · simp [hcd, hdc] at h1
      · have hcd' : c.toNat = d.toNat := by omega
        by_cases hde : d.toNat < e.toNat
        · simp [hcd' ▸ hde]
        · by_cases hed : e.toNat < d.toNat
          · simp [hde, hed] at h2
          · have hde' : d.toNat = e.toNat := by omega
            simp [hcd, hdc] at h1
            simp [hde, hed] at h2
            have hce : ¬c.toNat < e.toNat := by omega
            have hec : ¬e.toNat < c.toNat := by omega
            simpa [hce, hec] using charsLe_trans cs ds es h1 h2

/-- The order `strLeB` is reflexive. -/
theorem strLeB_refl (a : String) : Correlation.strLeB a a = true :=
  charsLe_refl a.data

/-- The order `strLeB` is total. -/
theorem strLeB_total (a b : String) :
    Correlation.strLeB a b = true ∨ Correlation.strLeB b a = true :=
  charsLe_total a.data b.data

/-- The order `strLeB` is transitive. -/
theorem strLeB_trans {a b c : String} (h1 : Correlation.strLeB a b = true)
    (h2 : Correlation.strLeB b c = true) : Correlation.strLeB a c = true :=
  charsLe_trans a.data b.data c.data h1 h2

/-- The first-maximal-count scan, run over an ascending candidate list all of
whose elements are at least `best`, returns the smallest value of maximal
count among `best` and the candidates. -/
theorem modeScan_spec (cnt : String → Nat) :
    ∀ (l : List String) (best : String),
      List.Sorted (fun a b => Correlation.strLeB a b = true) l →
      (∀ w ∈ l, Correlation.strLeB best w = true) →
      (Correlation.modeScan cnt l best = best ∨
          (Correlation.modeScan cnt l best ∈ l ∧
            cnt best < cnt (Correlation.modeScan cnt l best))) ∧
        (∀ w ∈ l, cnt w ≤ cnt (Correlation.modeScan cnt l best)) ∧
        (∀ w, (w = best ∨ w ∈ l) → cnt w = cnt (Correlation.modeScan cnt l best) →
          Correlation.strLeB (Correlation.modeScan cnt l best) w = true)
  | [], best, _, _ => by
    refine ⟨Or.inl rfl, by simp, ?_⟩
    intro w hw _
    rcases hw with rfl | hw
    · exact strLeB_refl w
    · simp at hw
  | v :: vs, best, hs, hb => by
    rw [List.sorted_cons] at hs
    have hbv : Correlation.strLeB best v = true := hb v (List.mem_cons_self _ _)
    by_cases hcv : cnt best < cnt v
    · rw [Correlation.modeScan, if_pos hcv]
      obtain ⟨A, B, C⟩ := modeScan_spec cnt vs v hs.2 hs.1
      have hvr : cnt v ≤ cnt (Correlation.modeScan cnt vs v) := by
        rcases A with h | ⟨_, hlt⟩
        · rw [h]
        · exact le_of_lt hlt
      refine ⟨?_, ?_, ?_⟩
      · rcases A with h | ⟨hm, hlt⟩
        · exact Or.inr ⟨by rw [h]; exact List.mem_cons_self _ _, by rw [h]; exact hcv⟩
        · exact Or.inr ⟨List.mem_cons_of_mem _ hm, lt_trans hcv hlt⟩
      · intro w hw
        rcases List.mem_cons.mp hw with rfl | hw
        · exact hvr
        · exact B w hw
      · intro w hw hc
        rcases hw with rfl | hw
        · exact absurd hc (by omega)
        · exact C w (List.mem_cons.mp hw) hc
    · rw [Correlation.modeScan, if_neg hcv]
      have hcv' : cnt v ≤ cnt best := Nat.le_of_not_lt hcv
      have hbvs : ∀ w ∈ vs, Correlation.strLeB best w = true :=
        fun w hw => strLeB_trans hbv (hs.1 w hw)
      obtain ⟨A, B, C⟩ := modeScan_spec cnt vs best hs.2 hbvs
      have hbr : cnt best ≤ cnt (Correlation.modeScan cnt vs best) := by
        rcases A with h | ⟨_, hlt⟩
        · rw [h]
        · exact le_of_lt hlt
      refine ⟨?_, ?_, ?_⟩
      · rcases A with h | ⟨hm, hlt⟩
        · exact Or.inl h
        · exact Or.inr ⟨List.mem_cons_of_mem _ hm, hlt⟩
      · intro w hw
        rcases List.mem_cons.mp hw with rfl | hw
        · exact le_trans hcv' hbr
        · exact B w hw
      · intro w hw hc
        rcases hw with rfl | hw
        · exact C w (Or.inl rfl) hc
        · rcases List.mem_cons.mp hw with rfl | hw
          · rcases A with h | ⟨_, hlt⟩
            · rw [h]; exact hbv
            · exact absurd hc (by omega)
          · exact C w (Or.inr hw) hc

/-- The value `pdMode` of a non-empty list is the smallest value of maximal count. -/
theorem pdMode_spec (xs : List String) (h : xs ≠ []) :
    Correlation.smallestMaximalCount xs (Correlation.pdMode xs) := by
  haveI : IsTotal String (fun a b => Correlation.strLeB a b = true) :=
    ⟨fun a b => strLeB_total a b⟩
  haveI : IsTrans String (fun a b => Correlation.strLeB a b = true) :=
    ⟨fun _ _ _ hab hbc => strLeB_trans hab hbc⟩
  have hdne : xs.dedup ≠ [] := by
    intro hd
    exact h ((List.dedup_eq_nil _).mp hd)
  have hne : List.insertionSort (fun a b : String => Correlation.strLeB a b = true)
      xs.dedup ≠ [] := by
    intro hcontra
    exact hdne (List.Perm.eq_nil
      ((List.perm_insertionSort
          (fun a b : String => Correlation.strLeB a b = true) xs.dedup).symm.trans
        (hcontra ▸ List.Perm.refl _)))
  obtain ⟨v, vs, hvvs⟩ := List.exists_cons_of_ne_nil hne
  have hsorted : List.Sorted (fun a b : String => Correlation.strLeB a b = true)
      (v :: vs) := by
    rw [← hvvs]
    exact List.sorted_insertionSort _ _
  rw [List.sorted_cons] at hsorted
  obtain ⟨A, B, C⟩ :=
    modeScan_spec (fun w => xs.count w) vs v hsorted.2 hsorted.1
  have hmode : Correlation.pdMode xs = Correlation.modeScan (fun w => xs.count w) vs v := by
    unfold Correlation.pdMode
    rw [hvvs]
  have hmemconv : ∀ w : String, w ∈ v :: vs ↔ w ∈ xs := by
    intro w
    rw [← hvvs, List.mem_insertionSort, List.mem_dedup]
  refine ⟨?_, ?_, ?_⟩
  · rw [hmode]
    rcases A with hA | ⟨hm, _⟩
    · rw [hA]
      exact (hmemconv v).mp (List.mem_cons_self _ _)
    · exact (hmemconv _).mp (List.mem_cons_of_mem _ hm)
  · intro w hw
    rw [hmode]
    rcases List.mem_cons.mp ((hmemconv w).mpr hw) with rfl | hw2
    · rcases A with hA | ⟨_, hlt⟩
      · rw [hA]
      · exact le_of_lt hlt
    · exact B w hw2
  · intro w hw hc
    rw [hmode] at hc ⊢
    rcases List.mem_cons.mp ((hmemconv w).mpr hw) with rfl | hw2
    · exact C w (Or.inl rfl) hc
    · exact C w (Or.inr hw2) hc

/-- C6 counterexample: in the two-member cluster whose members carry
`source_ip` values `"b"` then `"a"` (one occurrence each), the member with
the smallest original index has value `"b"`, but the aggregation returns
`"a"` — pandas `mode()[0]` breaks ties by sorted value order, not by member
index. -/
theorem aggregated_mode_not_by_first_index :
    Correlation.specModeByFirstIndex
        ((([Correlation.Alert.mk 0 "b" "u" "malware" 1 "HIGH",
            Correlation.Alert.mk 0 "a" "u" "malware" 1 "HIGH"]).map
          (fun a => a.source_ip))) = "b" ∧
      (Correlation.aggregateCluster 300
          [Correlation.Alert.mk 0 "b" "u" "malware" 1 "HIGH",
           Correlation.Alert.mk 0 "a" "u" "malware" 1 "HIGH"]).source_ip = "a" ∧
      ("a" : String) ≠ "b" := by
  refine ⟨?_, ?_, ?_⟩ <;> decide

/-- C6 (amended): for every non-empty cluster, the aggregated `source_ip` is
a most frequent member value and, among the most frequent values, the
smallest in ascending value order (pandas tie-break); likewise for the
aggregated `severity`. The tie-break is by value, not by member index. -/
theorem cluster_mode_smallest_value (W : Nat) (members : List Correlation.Alert)
    (h : members ≠ []) :
    Correlation.smallestMaximalCount (members.map (fun a => a.source_ip))
        ((Correlation.aggregateCluster W members).source_ip) ∧
      Correlation.smallestMaximalCount (members.map (fun a => a.severity))
        ((Correlation.aggregateCluster W members).severity) := by
  constructor
  · exact pdMode_spec (members.map (fun a => a.source_ip))
      (by simpa using h)
  · exact pdMode_spec (members.map (fun a => a.severity))
      (by simpa using h)

/-- Witness for the amended C6 on the two-member tie cluster. -/
theorem cluster_mode_smallest_value_witness :
    ([Correlation.Alert.mk 0 "b" "u" "malware" 1 "HIGH",
      Correlation.Alert.mk 0 "a" "u" "malware" 1 "HIGH"] ≠
        ([] : List Correlation.Alert)) ∧
      (Correlation.smallestMaximalCount
          (([Correlation.Alert.mk 0 "b" "u" "malware" 1 "HIGH",
             Correlation.Alert.mk 0 "a" "u" "malware" 1 "HIGH"]).map
            (fun a => a.source_ip))
          ((Correlation.aggregateCluster 300
            [Correlation.Alert.mk 0 "b" "u" "malware" 1 "HIGH",
             Correlation.Alert.mk 0 "a" "u" "malware" 1 "HIGH"]).source_ip) ∧
        Correlation.smallestMaximalCount
          (([Correlation.Alert.mk 0 "b" "u" "malware" 1 "HIGH",
             Correlation.Alert.mk 0 "a" "u" "malware" 1 "HIGH"]).map
            (fun a => a.severity))
          ((Correlation.aggregateCluster 300
            [Correlation.Alert.mk 0 "b" "u" "malware" 1 "HIGH",
             Correlation.Alert.mk 0 "a" "u" "malware" 1 "HIGH"]).severity)) :=
  ⟨by simp,
    cluster_mode_smallest_value 300
      [Correlation.Alert.mk 0 "b" "u" "malware" 1 "HIGH",
       Correlation.Alert.mk 0 "a" "u" "malware" 1 "HIGH"] (by simp)⟩

/-- Splitting an iterated parent dereference. -/
theorem iterP_add (p : List Nat) :
    ∀ (a b i : Nat), Correlation.iterP p (a + b) i =
      Correlation.iterP p b (Correlation.iterP p a i)
  | 0, b, i => by rw [Nat.zero_add]; rfl
  | a + 1, b, i => by
    have hsum : a + 1 + b = (a + b) + 1 := by omega
    rw [hsum]
    show Correlation.iterP p (a + b) (Correlation.pstep p i) = _
    rw [iterP_add p a b (Correlation.pstep p i)]
    rfl

/-- A root is a fixed point of iteration. -/
theorem iterP_fix (p : List Nat) (r : Nat) (hr : Correlation.IsRootP p r) :
    ∀ k, Correlation.iterP p k r = r
  | 0 => rfl
  | k + 1 => by
    show Correlation.iterP p k (Correlation.pstep p r) = r
    rw [hr]
    exact iterP_fix p r hr k

/-- Reachability propagates along the chain. -/
theorem reaches_pstep (p : List Nat) (i : Nat) (h : Correlation.Reaches p i)
    (hnr : ¬Correlation.IsRootP p i) :
    Correlation.Reaches p (Correlation.pstep p i) := by
  obtain ⟨k, hk⟩ := h
  cases k with
  | zero => exact absurd hk hnr
  | succ k => exact ⟨k, hk⟩

/-- The root distance of a non-root is one more than that of its parent. -/
theorem dist_step (p : List Nat) (i : Nat) (h : Correlation.Reaches p i)
    (hnr : ¬Correlation.IsRootP p i)
    (h2 : Correlation.Reaches p (Correlation.pstep p i)) :
    Nat.find h = Nat.find h2 + 1 := by
  have hne : Nat.find h ≠ 0 := by
    intro h0
    have hs := Nat.find_spec h
    rw [h0] at hs
    exact hnr hs
  have h1le : Nat.find h ≤ Nat.find h2 + 1 :=
    Nat.find_min' h (Nat.find_spec h2)
  have h2le : Nat.find h2 ≤ Nat.find h - 1 := by
    apply Nat.find_min' h2
    show Correlation.IsRootP p
      (Correlation.iterP p (Nat.find h - 1) (Correlation.pstep p i))
    have harith : Nat.find h - 1 + 1 = Nat.find h := by omega
    have hkey : Correlation.iterP p (Nat.find h - 1 + 1) i =
        Correlation.iterP p (Nat.find h) i := by rw [harith]
    exact hkey ▸ Nat.find_spec h
  omega

/-- The function `rootD` with enough fuel computes the first root on the chain. -/
theorem rootD_correct (p : List Nat) :
    ∀ (fuel i : Nat) (h : Correlation.Reaches p i), Nat.find h ≤ fuel →
      Correlation.rootD p fuel i = Correlation.iterP p (Nat.find h) i
  | 0, i, h, hle => by
    have h0 : Nat.find h = 0 := Nat.le_zero.mp hle
    rw [h0]
    rfl
  | fuel + 1, i, h, hle => by
    by_cases hr : Correlation.pstep p i = i
    · have h0 : Nat.find h = 0 := Nat.le_zero.mp (Nat.find_min' h hr)
      rw [h0]
      show (if Correlation.pstep p i = i then i
        else Correlation.rootD p fuel (Correlation.pstep p i)) = i
      rw [if_pos hr]
    · have h2 := reaches_pstep p i h hr
      have hd := dist_step p i h hr h2
      have hle2 : Nat.find h2 ≤ fuel := by omega
      show (if Correlation.pstep p i = i then i
        else Correlation.rootD p fuel (Correlation.pstep p i)) = _
      rw [if_neg hr, rootD_correct p fuel (Correlation.pstep p i) h2 hle2, hd]
      rfl

/-- The function `rootD` fixes roots at any fuel. -/
theorem rootD_of_isRoot (p : List Nat) (fuel i : Nat)
    (hr : Correlation.IsRootP p i) : Correlation.rootD p fuel i = i := by
  cases fuel with
  | zero => rfl
  | succ fuel =>
    show (if Correlation.pstep p i = i then i
      else Correlation.rootD p fuel (Correlation.pstep p i)) = i
    have hr' : Correlation.pstep p i = i := hr
    rw [if_pos hr']

/-- Chains starting in range stay in range. -/
theorem iterP_lt (p : List Nat) (hInv : Correlation.InvP p) :
    ∀ (k i : Nat), i < p.length → Correlation.iterP p k i < p.length
  | 0, i, hi => hi
  | k + 1, i, hi => iterP_lt p hInv k (Correlation.pstep p i) (hInv.1 i hi)

/-- Under the invariant, the root distance never exceeds the array length:
a longer acyclic chain would visit more distinct indices than exist. -/
theorem dist_le_length (p : List Nat) (hInv : Correlation.InvP p) (i : Nat)
    (h : Correlation.Reaches p i) : Nat.find h ≤ p.length := by
  by_cases hi : i < p.length
  · by_contra hgt
    push_neg at hgt
    have key : ∀ a b, a < b → b ≤ p.length →
        Correlation.iterP p a i ≠ Correlation.iterP p b i := by
      intro a b hab hbn heq
      have h1 : Correlation.iterP p (a + (Nat.find h - b)) i =
          Correlation.iterP p (Nat.find h) i := by
        rw [iterP_add, heq, ← iterP_add]
        congr 1
        omega
      have hroot : Correlation.IsRootP p
          (Correlation.iterP p (a + (Nat.find h - b)) i) := by
        rw [h1]
        exact Nat.find_spec h
      have := Nat.find_min' h hroot
      omega
    have hmaps : ∀ a ∈ Finset.range (p.length + 1),
        Correlation.iterP p a i ∈ Finset.range p.length := by
      intro a _
      exact Finset.mem_range.mpr (iterP_lt p hInv a i hi)
    have hinj : Set.InjOn (fun a => Correlation.iterP p a i)
        ↑(Finset.range (p.length + 1)) := by
      intro a ha b hb heq
      simp only [Finset.coe_range, Set.mem_Iio] at ha hb
      rcases Nat.lt_trichotomy a b with hlt | heqq | hgt2
      · exact absurd heq (key a b hlt (by omega))
      · exact heqq
      · exact absurd heq.symm (key b a hgt2 (by omega))
    have hcard := Finset.card_le_card_of_injOn _ hmaps hinj
    simp at hcard
  · have hr : Correlation.IsRootP p i := by
      unfold Correlation.IsRootP Correlation.pstep
      exact List.getD_eq_default _ _ (Nat.le_of_not_lt hi)
    have hr0 : Correlation.IsRootP p (Correlation.iterP p 0 i) := hr
    have := Nat.find_min' h hr0
    omega

/-- The root computed with fuel = length is a root. -/
theorem rootOf_isRoot (p : List Nat) (hInv : Correlation.InvP p) (i : Nat) :
    Correlation.IsRootP p (Correlation.rootOf p i) := by
  have h := hInv.2 i
  rw [Correlation.rootOf, rootD_correct p p.length i h (dist_le_length p hInv i h)]
  exact Nat.find_spec h

/-- The root is on the chain from `i`. -/
theorem rootOf_iter (p : List Nat) (hInv : Correlation.InvP p) (i : Nat) :
    ∃ k, Correlation.iterP p k i = Correlation.rootOf p i := by
  have h := hInv.2 i
  exact ⟨Nat.find h,
    by rw [Correlation.rootOf,
      rootD_correct p p.length i h (dist_le_length p hInv i h)]⟩

/-- Any root reached along a chain is the root of the chain's start. -/
theorem rootOf_unique (p : List Nat) (hInv : Correlation.InvP p) (i k R : Nat)
    (hk : Correlation.iterP p k i = R) (hR : Correlation.IsRootP p R) :
    Correlation.rootOf p i = R := by
  have h := hInv.2 i
  have hWithin : Nat.find h ≤ k := Nat.find_min' h (by rw [hk]; exact hR)
  have hsplit : Correlation.iterP p k i =
      Correlation.iterP p (k - Nat.find h)
        (Correlation.iterP p (Nat.find h) i) := by
    rw [← iterP_add]
    congr 1
    omega
  have hfix : Correlation.iterP p (k - Nat.find h)
      (Correlation.iterP p (Nat.find h) i) =
        Correlation.iterP p (Nat.find h) i :=
    iterP_fix p _ (Nat.find_spec h) _
  rw [hsplit, hfix] at hk
  rw [Correlation.rootOf, rootD_correct p p.length i h (dist_le_length p hInv i h)]
  exact hk

/-- The root of a root is itself. -/
theorem rootOf_of_isRoot (p : List Nat) (i : Nat)
    (hr : Correlation.IsRootP p i) : Correlation.rootOf p i = i :=
  rootD_of_isRoot p p.length i hr

/-- Fixed points of `rootOf` are roots. -/
theorem isRoot_of_rootOf_eq (p : List Nat) (hInv : Correlation.InvP p) (i : Nat)
    (heq : Correlation.rootOf p i = i) : Correlation.IsRootP p i :=
  heq ▸ rootOf_isRoot p hInv i

/-- Moving one step along the chain does not change the root. -/
theorem rootOf_pstep (p : List Nat) (hInv : Correlation.InvP p) (i : Nat) :
    Correlation.rootOf p (Correlation.pstep p i) = Correlation.rootOf p i := by
  obtain ⟨k, hk⟩ := rootOf_iter p hInv (Correlation.pstep p i)
  have hk1 : Correlation.iterP p (k + 1) i =
      Correlation.rootOf p (Correlation.pstep p i) := by
    have hshift : Correlation.iterP p (k + 1) i =
        Correlation.iterP p k (Correlation.pstep p i) := rfl
    rw [hshift, hk]
  exact (rootOf_unique p hInv i (k + 1) _ hk1
    (rootOf_isRoot p hInv (Correlation.pstep p i))).symm

/-- Roots of in-range indices are in range. -/
theorem rootOf_lt (p : List Nat) (hInv : Correlation.InvP p) (i : Nat)
    (hi : i < p.length) : Correlation.rootOf p i < p.length := by
  obtain ⟨k, hk⟩ := rootOf_iter p hInv i
  exact hk ▸ iterP_lt p hInv k i hi

/-- Parent lookup after a single array write. -/
theorem pstep_set (p : List Nat) (x r : Nat) (hx : x < p.length) (j : Nat) :
    Correlation.pstep (p.set x r) j = if j = x then r else Correlation.pstep p j := by
  unfold Correlation.pstep
  by_cases hj : j = x
  · subst hj
    rw [if_pos rfl, List.getD_eq_getElem _ _ (by simpa using hx)]
    simp
  · rw [if_neg hj]
    by_cases h : j < p.length
    · rw [List.getD_eq_getElem _ _ (by simpa using h), List.getD_eq_getElem _ _ h]
      simp only [List.getElem_set]
      rw [if_neg (fun he => hj he.symm)]
    · rw [List.getD_eq_default _ _ (by simpa using Nat.le_of_not_lt h),
        List.getD_eq_default _ _ (Nat.le_of_not_lt h)]

/-- Writing `parent[x] := r` for a root `r` that is either the root of `x`
(path compression) or the new parent of the root `x` (linking) preserves the
invariant and redirects exactly the chains that ended at `x` to `r`. -/
theorem rootOf_set (p : List Nat) (hInv : Correlation.InvP p) (x r : Nat)
    (hx : x < p.length) (hrlen : r < p.length) (hr : Correlation.IsRootP p r)
    (hcase : Correlation.rootOf p x = r ∨ Correlation.IsRootP p x) :
    Correlation.InvP (p.set x r) ∧
      ∀ j, Correlation.rootOf (p.set x r) j =
        (if Correlation.rootOf p j = x then r else Correlation.rootOf p j) := by
  have hlen : (p.set x r).length = p.length := List.length_set p x r
  have hps : ∀ j, Correlation.pstep (p.set x r) j =
      if j = x then r else Correlation.pstep p j := pstep_set p x r hx
  have hTroot : ∀ j, Correlation.IsRootP (p.set x r)
      (if Correlation.rootOf p j = x then r else Correlation.rootOf p j) := by
    intro j
    by_cases hjx : Correlation.rootOf p j = x
    · rw [if_pos hjx]
      show Correlation.pstep (p.set x r) r = r
      rw [hps r]
      by_cases hrx : r = x
      · rw [if_pos hrx]
      · rw [if_neg hrx]
        exact hr
    · rw [if_neg hjx]
      show Correlation.pstep (p.set x r) (Correlation.rootOf p j) =
        Correlation.rootOf p j
      rw [hps _, if_neg hjx]
      exact rootOf_isRoot p hInv j
  have main : ∀ n j, ∀ (hj : Correlation.Reaches p j), Nat.find hj = n →
      ∃ k, Correlation.iterP (p.set x r) k j =
        (if Correlation.rootOf p j = x then r else Correlation.rootOf p j) := by
    intro n
    induction n using Nat.strong_induction_on with
    | _ n IH =>
      intro j hj hfind
      by_cases hroot : Correlation.IsRootP p j
      · have hrj : Correlation.rootOf p j = j := rootOf_of_isRoot p j hroot
        by_cases hjx : j = x
        · refine ⟨1, ?_⟩
          rw [hrj, if_pos hjx]
          show Correlation.iterP (p.set x r) 0 (Correlation.pstep (p.set x r) j) = r
          rw [hps j, if_pos hjx]
          rfl
        · refine ⟨0, ?_⟩
          rw [hrj, if_neg hjx]
          rfl
      · by_cases hjx : j = x
        · rcases hcase with hca | hcb
          · have hcond : Correlation.rootOf p j ≠ x := by
              rw [← hjx]
              exact fun he => hroot (isRoot_of_rootOf_eq p hInv j he)
            refine ⟨1, ?_⟩
            rw [if_neg hcond]
            show Correlation.iterP (p.set x r) 0
              (Correlation.pstep (p.set x r) j) = Correlation.rootOf p j
            rw [hps j, if_pos hjx]
            show r = Correlation.rootOf p j
            rw [hjx]
            exact hca.symm
          · exact absurd (show Correlation.IsRootP p j by rw [hjx]; exact hcb) hroot
        · have h2 : Correlation.Reaches p (Correlation.pstep p j) :=
            reaches_pstep p j hj hroot
          have hd := dist_step p j hj hroot h2
          have hlt : Nat.find h2 < n := by omega
          obtain ⟨k1, hk1⟩ := IH (Nat.find h2) hlt (Correlation.pstep p j) h2 rfl
          refine ⟨k1 + 1, ?_⟩
          have hstep : Correlation.iterP (p.set x r) (k1 + 1) j =
              Correlation.iterP (p.set x r) k1 (Correlation.pstep (p.set x r) j) := rfl
          rw [hstep, hps j, if_neg hjx, hk1, rootOf_pstep p hInv j]
  have hqInv : Correlation.InvP (p.set x r) := by
    constructor
    · intro i hi
      rw [hlen] at hi ⊢
      rw [hps i]
      by_cases hix : i = x
      · rw [if_pos hix]
        exact hrlen
      · rw [if_neg hix]
        exact hInv.1 i hi
    · intro j
      obtain ⟨k, hk⟩ := main (Nat.find (hInv.2 j)) j (hInv.2 j) rfl
      refine ⟨k, ?_⟩
      rw [hk]
      exact hTroot j
  refine ⟨hqInv, ?_⟩
  intro j
  obtain ⟨k, hk⟩ := main (Nat.find (hInv.2 j)) j (hInv.2 j) rfl
  exact rootOf_unique (p.set x r) hqInv j k _ hk (hTroot j)

/-- Compressed `find` with enough fuel returns the root, preserves the invariant and the
array length, and path compression never changes any root. -/
theorem findAux_spec :
    ∀ (fuel : Nat) (p : List Nat) (x : Nat), Correlation.InvP p →
      ∀ (h : Correlation.Reaches p x), Nat.find h ≤ fuel →
      (Correlation.findAux fuel p x).2 = Correlation.rootOf p x ∧
        (Correlation.findAux fuel p x).1.length = p.length ∧
        Correlation.InvP (Correlation.findAux fuel p x).1 ∧
        ∀ j, Correlation.rootOf (Correlation.findAux fuel p x).1 j =
          Correlation.rootOf p j
  | 0, p, x, hInv, h, hle => by
    have h0 : Nat.find h = 0 := Nat.le_zero.mp hle
    have hroot : Correlation.IsRootP p x := by
      have hs := Nat.find_spec h
      rw [h0] at hs
      exact hs
    exact ⟨(rootOf_of_isRoot p x hroot).symm, rfl, hInv, fun j => rfl⟩
  | fuel + 1, p, x, hInv, h, hle => by
    by_cases hr : p.getD x x = x
    · have hroot : Correlation.IsRootP p x := hr
      have heq : Correlation.findAux (fuel + 1) p x = (p, x) := by
        show (if p.getD x x = x then (p, x) else _) = (p, x)
        rw [if_pos hr]
      rw [heq]
      exact ⟨(rootOf_of_isRoot p x hroot).symm, rfl, hInv, fun j => rfl⟩
    · have hnroot : ¬Correlation.IsRootP p x := hr
      have hxlen : x < p.length := by
        by_contra hxl
        exact hr (List.getD_eq_default _ _ (Nat.le_of_not_lt hxl))
      have h2 : Correlation.Reaches p (Correlation.pstep p x) :=
        reaches_pstep p x h hnroot
      have hd := dist_step p x h hnroot h2
      have hle2 : Nat.find h2 ≤ fuel := by omega
      obtain ⟨ih1, ih2, ih3, ih4⟩ :=
        findAux_spec fuel p (Correlation.pstep p x) hInv h2 hle2
      have heq : Correlation.findAux (fuel + 1) p x =
          ((Correlation.findAux fuel p (Correlation.pstep p x)).1.set x
            (Correlation.findAux fuel p (Correlation.pstep p x)).2,
           (Correlation.findAux fuel p (Correlation.pstep p x)).2) := by
        show (if p.getD x x = x then (p, x) else _) = _
        rw [if_neg hr]
        rfl
      have hrval : (Correlation.findAux fuel p (Correlation.pstep p x)).2 =
          Correlation.rootOf p x := by
        rw [ih1, rootOf_pstep p hInv x]
      have hroot_p1 : Correlation.IsRootP
          (Correlation.findAux fuel p (Correlation.pstep p x)).1
          (Correlation.findAux fuel p (Correlation.pstep p x)).2 := by
        have hreq : (Correlation.findAux fuel p (Correlation.pstep p x)).2 =
            Correlation.rootOf
              (Correlation.findAux fuel p (Correlation.pstep p x)).1 x := by
          rw [hrval]
          exact (ih4 x).symm
        rw [hreq]
        exact rootOf_isRoot _ ih3 x
      have hx1 : x < (Correlation.findAux fuel p (Correlation.pstep p x)).1.length := by
        rw [ih2]
        exact hxlen
      have hr1 : (Correlation.findAux fuel p (Correlation.pstep p x)).2 <
          (Correlation.findAux fuel p (Correlation.pstep p x)).1.length := by
        rw [ih2, hrval]
        exact rootOf_lt p hInv x hxlen
      have hcase : Correlation.rootOf
            (Correlation.findAux fuel p (Correlation.pstep p x)).1 x =
            (Correlation.findAux fuel p (Correlation.pstep p x)).2 ∨
          Correlation.IsRootP
            (Correlation.findAux fuel p (Correlation.pstep p x)).1 x :=
        Or.inl (by rw [ih4 x, hrval])
      obtain ⟨hset_inv, hset_root⟩ :=
        rootOf_set _ ih3 x _ hx1 hr1 hroot_p1 hcase
      rw [heq]
      refine ⟨hrval, ?_, hset_inv, ?_⟩
      · rw [List.length_set, ih2]
      · intro j
        rw [hset_root j, ih4 j]
        have hcond : Correlation.rootOf p j ≠ x :=
          fun he => hnroot (he ▸ rootOf_isRoot p hInv j)
        rw [if_neg hcond]

/-- Wrapped `UnionFind.find` on the state: returns the root, keeps the rank array,
preserves the invariant, the array length and every root. -/
theorem UF_find_spec (s : Correlation.UF) (hInv : Correlation.UFInv s) (x : Nat) :
    (s.find x).2 = Correlation.rootU s x ∧
      (s.find x).1.parent.length = s.parent.length ∧
      (s.find x).1.rank = s.rank ∧
      Correlation.UFInv (s.find x).1 ∧
      ∀ j, Correlation.rootU (s.find x).1 j = Correlation.rootU s j := by
  have h := hInv.2 x
  have hle := dist_le_length s.parent hInv x h
  obtain ⟨h1, h2, h3, h4⟩ := findAux_spec s.parent.length s.parent x hInv h hle
  exact ⟨h1, h2, rfl, h3, h4⟩

/-- Wrapped `UnionFind.union`: the invariant and length are preserved, and the roots
of the two classes of `x` and `y` are merged into a single winner root while
every other class is untouched. -/
theorem UF_union_spec (s : Correlation.UF) (hInv : Correlation.UFInv s) (x y : Nat)
    (hx : x < s.parent.length) (hy : y < s.parent.length) :
    Correlation.UFInv (s.union x y) ∧
      (s.union x y).parent.length = s.parent.length ∧
      ∃ w, (w = Correlation.rootU s x ∨ w = Correlation.rootU s y) ∧
        ∀ j, Correlation.rootU (s.union x y) j =
          if Correlation.rootU s j = Correlation.rootU s x ∨
              Correlation.rootU s j = Correlation.rootU s y then w
          else Correlation.rootU s j := by
  obtain ⟨f1a, f1b, f1c, f1d, f1e⟩ := UF_find_spec s hInv x
  obtain ⟨f2a, f2b, f2c, f2d, f2e⟩ := UF_find_spec (s.find x).1 f1d y
  have hry : ((s.find x).1.find y).2 = Correlation.rootU s y := by
    rw [f2a, f1e y]
  have hs2root : ∀ j, Correlation.rootU ((s.find x).1.find y).1 j =
      Correlation.rootU s j := fun j => by rw [f2e j, f1e j]
  have hs2rootP : ∀ j, Correlation.rootOf ((s.find x).1.find y).1.parent j =
      Correlation.rootU s j := hs2root
  have hs2len : ((s.find x).1.find y).1.parent.length = s.parent.length := by
    rw [f2b, f1b]
  have hrxroot : Correlation.IsRootP ((s.find x).1.find y).1.parent
      (Correlation.rootU s x) := by
    have hxx : Correlation.rootU s x =
        Correlation.rootU ((s.find x).1.find y).1 x := (hs2root x).symm
    rw [hxx]
    exact rootOf_isRoot _ f2d x
  have hryroot : Correlation.IsRootP ((s.find x).1.find y).1.parent
      (Correlation.rootU s y) := by
    have hyy : Correlation.rootU s y =
        Correlation.rootU ((s.find x).1.find y).1 y := (hs2root y).symm
    rw [hyy]
    exact rootOf_isRoot _ f2d y
  have hrxlt : Correlation.rootU s x < ((s.find x).1.find y).1.parent.length := by
    rw [hs2len]
    exact rootOf_lt s.parent hInv x hx
  have hrylt : Correlation.rootU s y < ((s.find x).1.find y).1.parent.length := by
    rw [hs2len]
    exact rootOf_lt s.parent hInv y hy
  have hform : ∀ (v w j : Nat),
      Correlation.rootU s x = v ∨ Correlation.rootU s y = v →
      Correlation.rootU s x = w ∨ Correlation.rootU s y = w →
      v ≠ w →
      (if Correlation.rootU s j = v then w else Correlation.rootU s j) =
        (if Correlation.rootU s j = Correlation.rootU s x ∨
            Correlation.rootU s j = Correlation.rootU s y then w
          else Correlation.rootU s j) := by
    intro v w j hv hw hvw
    by_cases h1 : Correlation.rootU s j = v
    · rw [if_pos h1]
      rcases hv with hv | hv <;> rw [if_pos (by rw [h1, ← hv]; tauto)]
    · rw [if_neg h1]
      by_cases h2 : Correlation.rootU s j = w
      · rw [if_pos (by rcases hw with hw | hw <;> rw [h2, ← hw] <;> tauto), h2]
      · have hcond : ¬(Correlation.rootU s j = Correlation.rootU s x ∨
            Correlation.rootU s j = Correlation.rootU s y) := by
          rcases hv with hv | hv <;> rcases hw with hw | hw <;>
            [skip; skip; skip; skip] <;> omega
        rw [if_neg hcond]
  by_cases heq : (s.find x).2 = ((s.find x).1.find y).2
  · have hueq : s.union x y = ((s.find x).1.find y).1 := by
      show (if (s.find x).2 = ((s.find x).1.find y).2 then _ else _) = _
      rw [if_pos heq]
    have hxyeq : Correlation.rootU s x = Correlation.rootU s y := by
      rw [← f1a, ← hry, heq]
    refine ⟨hueq ▸ f2d, by rw [hueq, hs2len], Correlation.rootU s x, Or.inl rfl, ?_⟩
    intro j
    rw [hueq, hs2root j]
    by_cases hj : Correlation.rootU s j = Correlation.rootU s x
    · rw [if_pos (Or.inl hj), hj]
    · by_cases hj2 : Correlation.rootU s j = Correlation.rootU s y
      · rw [if_pos (Or.inr hj2), hj2, hxyeq]
      · rw [if_neg (not_or.mpr ⟨hj, hj2⟩)]
  · have hne : Correlation.rootU s x ≠ Correlation.rootU s y := by
      rw [← f1a, ← hry]
      exact heq
    by_cases hrank1 : ((s.find x).1.find y).1.rank.getD (s.find x).2 0 <
        ((s.find x).1.find y).1.rank.getD ((s.find x).1.find y).2 0
    · have hueq : s.union x y =
          ⟨((s.find x).1.find y).1.parent.set (s.find x).2 ((s.find x).1.find y).2,
            ((s.find x).1.find y).1.rank⟩ := by
        show (if (s.find x).2 = ((s.find x).1.find y).2 then _ else _) = _
        rw [if_neg heq, if_pos hrank1]
      obtain ⟨hsi, hsr⟩ := rootOf_set ((s.find x).1.find y).1.parent f2d
        (Correlation.rootU s x) (Correlation.rootU s y)
        hrxlt hrylt hryroot (Or.inr hrxroot)
      have hsi2 : Correlation.UFInv (s.union x y) := by
        rw [hueq]
        show Correlation.InvP (((s.find x).1.find y).1.parent.set
          ((s.find x).2) (((s.find x).1.find y).2))
        rw [f1a, hry]
        exact hsi
      refine ⟨hsi2, ?_, Correlation.rootU s y, Or.inr rfl, ?_⟩
      · rw [hueq]
        show (((s.find x).1.find y).1.parent.set
          ((s.find x).2) (((s.find x).1.find y).2)).length = _
        rw [f1a, hry, List.length_set, hs2len]
      · intro j
        have hru : Correlation.rootU (s.union x y) j =
            Correlation.rootOf (((s.find x).1.find y).1.parent.set
              (Correlation.rootU s x) (Correlation.rootU s y)) j := by
          rw [hueq]
          show Correlation.rootOf (((s.find x).1.find y).1.parent.set
            ((s.find x).2) (((s.find x).1.find y).2)) j = _
          rw [f1a, hry]
        rw [hru, hsr j, hs2rootP j]
        exact hform (Correlation.rootU s x) (Correlation.rootU s y) j
          (Or.inl rfl) (Or.inr rfl) hne
    · have hueqs : ∀ rk : List Nat,
          Correlation.UFInv (Correlation.UF.mk
              (((s.find x).1.find y).1.parent.set
                (Correlation.rootU s y) (Correlation.rootU s x)) rk) ∧
            ∀ j, Correlation.rootU (Correlation.UF.mk
              (((s.find x).1.find y).1.parent.set
                (Correlation.rootU s y) (Correlation.rootU s x)) rk) j =
              if Correlation.rootU s j = Correlation.rootU s x ∨
                  Correlation.rootU s j = Correlation.rootU s y then
                Correlation.rootU s x
              else Correlation.rootU s j := by
        intro rk
        obtain ⟨hsi, hsr⟩ := rootOf_set ((s.find x).1.find y).1.parent f2d
          (Correlation.rootU s y) (Correlation.rootU s x)
          hrylt hrxlt hrxroot (Or.inr hryroot)
        refine ⟨hsi, ?_⟩
        intro j
        show Correlation.rootOf (((s.find x).1.find y).1.parent.set
          (Correlation.rootU s y) (Correlation.rootU s x)) j = _
        rw [hsr j, hs2rootP j]
        exact hform (Correlation.rootU s y) (Correlation.rootU s x) j
          (Or.inr rfl) (Or.inl rfl) (Ne.symm hne)
      by_cases hrank2 : ((s.find x).1.find y).1.rank.getD ((s.find x).1.find y).2 0 <
          ((s.find x).1.find y).1.rank.getD (s.find x).2 0
      · have hueq : s.union x y =
            ⟨((s.find x).1.find y).1.parent.set ((s.find x).1.find y).2 (s.find x).2,
              ((s.find x).1.find y).1.rank⟩ := by
          show (if (s.find x).2 = ((s.find x).1.find y).2 then _ else _) = _
          rw [if_neg heq, if_neg hrank1, if_pos hrank2]
        have hcast : s.union x y = Correlation.UF.mk
            (((s.find x).1.find y).1.parent.set
              (Correlation.rootU s y) (Correlation.rootU s x))
            ((s.find x).1.find y).1.rank := by
          rw [hueq, f1a, hry]
        obtain ⟨hsi, hsr⟩ := hueqs ((s.find x).1.find y).1.rank
        refine ⟨by rw [hcast]; exact hsi, ?_, Correlation.rootU s x, Or.inl rfl, ?_⟩
        · rw [hcast]
          show ((((s.find x).1.find y).1.parent.set
            (Correlation.rootU s y) (Correlation.rootU s x))).length = _
          rw [List.length_set, hs2len]
        · intro j
          rw [hcast]
          exact hsr j
      · have hueq : s.union x y =
            ⟨((s.find x).1.find y).1.parent.set ((s.find x).1.find y).2 (s.find x).2,
              ((s.find x).1.find y).1.rank.set (s.find x).2
                (((s.find x).1.find y).1.rank.getD (s.find x).2 0 + 1)⟩ := by
          show (if (s.find x).2 = ((s.find x).1.find y).2 then _ else _) = _
          rw [if_neg heq, if_neg hrank1, if_neg hrank2]
        have hcast : s.union x y = Correlation.UF.mk
            (((s.find x).1.find y).1.parent.set
              (Correlation.rootU s y) (Correlation.rootU s x))
            (((s.find x).1.find y).1.rank.set (s.find x).2
              (((s.find x).1.find y).1.rank.getD (s.find x).2 0 + 1)) := by
          rw [hueq, f1a, hry]
        obtain ⟨hsi, hsr⟩ := hueqs (((s.find x).1.find y).1.rank.set (s.find x).2
          (((s.find x).1.find y).1.rank.getD (s.find x).2 0 + 1))
        refine ⟨by rw [hcast]; exact hsi, ?_, Correlation.rootU s x, Or.inl rfl, ?_⟩
        · rw [hcast]
          show ((((s.find x).1.find y).1.parent.set
            (Correlation.rootU s y) (Correlation.rootU s x))).length = _
          rw [List.length_set, hs2len]
        · intro j
          rw [hcast]
          exact hsr j

/-- The fresh union-find is well formed: everything is its own root. -/
theorem init_pstep (n : Nat) : ∀ i, Correlation.pstep (List.range n) i = i := by
  intro i
  unfold Correlation.pstep
  by_cases h : i < n
  · rw [List.getD_eq_getElem _ _ (by simpa using h)]
    simp
  · exact List.getD_eq_default _ _ (by simpa using Nat.le_of_not_lt h)

/-- Invariant of `UnionFind.__init__`. -/
theorem init_inv (n : Nat) : Correlation.UFInv (Correlation.UF.init n) := by
  constructor
  · intro i hi
    show Correlation.pstep (List.range n) i < (List.range n).length
    rw [init_pstep n i]
    have hi2 : i < (List.range n).length := hi
    exact hi2
  · intro j
    exact ⟨0, init_pstep n j⟩

/-- In the fresh union-find every index is its own root. -/
theorem init_rootU (n : Nat) : ∀ i, Correlation.rootU (Correlation.UF.init n) i = i :=
  fun i => rootOf_of_isRoot _ i (init_pstep n i)

/-- Length of the fresh parent array. -/
theorem init_length (n : Nat) : (Correlation.UF.init n).parent.length = n :=
  List.length_range n

/-- The union loop preserves the invariant and the length, never splits a
class, and joins the two classes of every processed pair. -/
theorem processPairs_spec :
    ∀ (prs : List (Nat × Nat)) (s : Correlation.UF), Correlation.UFInv s →
      (∀ pr ∈ prs, pr.1 < s.parent.length ∧ pr.2 < s.parent.length) →
      Correlation.UFInv (Correlation.processPairs s prs) ∧
        (Correlation.processPairs s prs).parent.length = s.parent.length ∧
        (∀ a b, Correlation.rootU s a = Correlation.rootU s b →
          Correlation.rootU (Correlation.processPairs s prs) a =
            Correlation.rootU (Correlation.processPairs s prs) b) ∧
        (∀ pr ∈ prs, Correlation.rootU (Correlation.processPairs s prs) pr.1 =
          Correlation.rootU (Correlation.processPairs s prs) pr.2)
  | [], s, hInv, _ => ⟨hInv, rfl, fun a b h => h, by simp⟩
  | pr :: rest, s, hInv, hb => by
    have hbh := hb pr (List.mem_cons_self _ _)
    obtain ⟨huI, huL, w, hw, hwf⟩ := UF_union_spec s hInv pr.1 pr.2 hbh.1 hbh.2
    have hb2 : ∀ q ∈ rest, q.1 < (s.union pr.1 pr.2).parent.length ∧
        q.2 < (s.union pr.1 pr.2).parent.length := by
      intro q hq
      rw [huL]
      exact hb q (List.mem_cons_of_mem _ hq)
    have hmono : ∀ a b, Correlation.rootU s a = Correlation.rootU s b →
        Correlation.rootU (s.union pr.1 pr.2) a =
          Correlation.rootU (s.union pr.1 pr.2) b := by
      intro a b hab
      rw [hwf a, hwf b, hab]
    have hconn : Correlation.rootU (s.union pr.1 pr.2) pr.1 =
        Correlation.rootU (s.union pr.1 pr.2) pr.2 := by
      rw [hwf pr.1, hwf pr.2, if_pos (Or.inl rfl), if_pos (Or.inr rfl)]
    obtain ⟨ih1, ih2, ih3, ih4⟩ := processPairs_spec rest (s.union pr.1 pr.2) huI hb2
    have hstep : Correlation.processPairs s (pr :: rest) =
        Correlation.processPairs (s.union pr.1 pr.2) rest := rfl
    rw [hstep]
    refine ⟨ih1, by rw [ih2, huL], ?_, ?_⟩
    · intro a b hab
      exact ih3 a b (hmono a b hab)
    · intro q hq
      rcases List.mem_cons.mp hq with rfl | hq2
      · exact ih3 q.1 q.2 hconn
      · exact ih4 q hq2

/-- In an association list with distinct keys, entries are determined by
their key. -/
theorem nodup_key_entry :
    ∀ (acc : List (Nat × List Nat)), (acc.map Prod.fst).Nodup →
      ∀ kv ∈ acc, ∀ kv' ∈ acc, kv.1 = kv'.1 → kv = kv'
  | [], _, _, h, _, _, _ => absurd h (List.not_mem_nil _)
  | a :: rest, hnd, kv, hkv, kv', hkv', hkey => by
    rw [List.map_cons, List.nodup_cons] at hnd
    rcases List.mem_cons.mp hkv with rfl | hkv2
    · rcases List.mem_cons.mp hkv' with rfl | hkv2'
      · rfl
      · exact absurd (hkey ▸ List.mem_map_of_mem Prod.fst hkv2') hnd.1
    · rcases List.mem_cons.mp hkv' with rfl | hkv2'
      · exact absurd (hkey ▸ List.mem_map_of_mem Prod.fst hkv2) hnd.1
      · exact nodup_key_entry rest hnd.2 kv hkv2 kv' hkv2' hkey

/-- Behaviour of `clusters.setdefault(root, []).append(pos)`. -/
theorem setdefaultAppend_spec (acc : List (Nat × List Nat)) (key pos : Nat)
    (hnd : (acc.map Prod.fst).Nodup) :
    ((Correlation.setdefaultAppend acc key pos).map Prod.fst).Nodup ∧
      (∀ kv' ∈ Correlation.setdefaultAppend acc key pos, ∀ q ∈ kv'.2,
        (∃ kv ∈ acc, kv.1 = kv'.1 ∧ q ∈ kv.2) ∨ (q = pos ∧ kv'.1 = key)) ∧
      (∀ kv ∈ acc, ∀ q ∈ kv.2,
        ∃ kv' ∈ Correlation.setdefaultAppend acc key pos, q ∈ kv'.2) ∧
      (∃ kv' ∈ Correlation.setdefaultAppend acc key pos,
        kv'.1 = key ∧ pos ∈ kv'.2) := by
  unfold Correlation.setdefaultAppend
  by_cases hmem : key ∈ acc.map Prod.fst
  · rw [if_pos hmem]
    have hfst : ∀ kv : Nat × List Nat,
        (if kv.1 = key then (kv.1, kv.2 ++ [pos]) else kv).1 = kv.1 := by
      intro kv
      by_cases h : kv.1 = key <;> simp [h]
    have hkeys : ((acc.map (fun kv =>
        if kv.1 = key then (kv.1, kv.2 ++ [pos]) else kv)).map Prod.fst) =
          acc.map Prod.fst := by
      rw [List.map_map]
      exact List.map_congr_left (fun kv _ => hfst kv)
    refine ⟨by rw [hkeys]; exact hnd, ?_, ?_, ?_⟩
    · intro kv' hkv' q hq
      obtain ⟨kv, hkv, hg⟩ := List.mem_map.mp hkv'
      by_cases h : kv.1 = key
      · rw [if_pos h] at hg
        subst hg
        rcases List.mem_append.mp hq with hq2 | hq2
        · exact Or.inl ⟨kv, hkv, rfl, hq2⟩
        · exact Or.inr ⟨List.mem_singleton.mp hq2, h⟩
      · rw [if_neg h] at hg
        subst hg
        exact Or.inl ⟨kv, hkv, rfl, hq⟩
    · intro kv hkv q hq
      refine ⟨if kv.1 = key then (kv.1, kv.2 ++ [pos]) else kv,
        List.mem_map_of_mem _ hkv, ?_⟩
      by_cases h : kv.1 = key
      · rw [if_pos h]
        exact List.mem_append_left _ hq
      · rw [if_neg h]
        exact hq
    · obtain ⟨kv, hkv, hkey⟩ := List.mem_map.mp hmem
      refine ⟨(kv.1, kv.2 ++ [pos]), ?_, hkey, List.mem_append_right _ (by simp)⟩
      have : (if kv.1 = key then (kv.1, kv.2 ++ [pos]) else kv) =
          (kv.1, kv.2 ++ [pos]) := by rw [if_pos hkey]
      exact this ▸ List.mem_map_of_mem _ hkv
  · rw [if_neg hmem]
    refine ⟨?_, ?_, ?_, ?_⟩
    · rw [List.map_append]
      refine List.Nodup.append hnd (by simp) ?_
      intro a ha hb
      simp only [List.map_cons, List.map_nil, List.mem_singleton] at hb
      exact hmem (hb ▸ ha)
    · intro kv' hkv' q hq
      rcases List.mem_append.mp hkv' with h | h
      · exact Or.inl ⟨kv', h, rfl, hq⟩
      · have hkv'' : kv' = (key, [pos]) := List.mem_singleton.mp h
        subst hkv''
        exact Or.inr ⟨List.mem_singleton.mp hq, rfl⟩
    · intro kv hkv q hq
      exact ⟨kv, List.mem_append_left _ hkv, hq⟩
    · exact ⟨(key, [pos]), List.mem_append_right _ (by simp), rfl, by simp⟩

/-- The cluster-collection loop groups positions by their (never-changing)
root: keys stay distinct, every member of an entry has the entry's key as its
root, and every processed position lands in some entry. -/
theorem clustersLoop_spec (R : Nat → Nat) :
    ∀ (positions : List Nat) (s : Correlation.UF) (acc : List (Nat × List Nat)),
      Correlation.UFInv s →
      (∀ j, Correlation.rootU s j = R j) →
      ((acc.map Prod.fst).Nodup) →
      (∀ kv ∈ acc, ∀ q ∈ kv.2, R q = kv.1) →
      (((Correlation.clustersLoop positions s acc).1.map Prod.fst).Nodup ∧
        (∀ kv ∈ (Correlation.clustersLoop positions s acc).1, ∀ q ∈ kv.2,
          R q = kv.1) ∧
        (∀ q, ((∃ kv ∈ acc, q ∈ kv.2) ∨ q ∈ positions) →
          ∃ kv ∈ (Correlation.clustersLoop positions s acc).1, q ∈ kv.2))
  | [], s, acc, hInv, hR, hnd, hprop => by
    refine ⟨hnd, hprop, ?_⟩
    intro q hq
    rcases hq with ⟨kv, hkv, hqkv⟩ | h
    · exact ⟨kv, hkv, hqkv⟩
    · simp at h
  | pos :: rest, s, acc, hInv, hR, hnd, hprop => by
    obtain ⟨fa, fb, fc, fd, fe⟩ := UF_find_spec s hInv pos
    have hstep : Correlation.clustersLoop (pos :: rest) s acc =
        Correlation.clustersLoop rest (s.find pos).1
          (Correlation.setdefaultAppend acc (s.find pos).2 pos) := rfl
    have hkey : (s.find pos).2 = R pos := by rw [fa, hR pos]
    obtain ⟨snd, sorig, scov, snew⟩ :=
      setdefaultAppend_spec acc (s.find pos).2 pos hnd
    have hR2 : ∀ j, Correlation.rootU (s.find pos).1 j = R j := fun j => by
      rw [fe j, hR j]
    have hprop2 : ∀ kv ∈ Correlation.setdefaultAppend acc (s.find pos).2 pos,
        ∀ q ∈ kv.2, R q = kv.1 := by
      intro kv hkv q hq
      rcases sorig kv hkv q hq with ⟨kv0, hkv0, hfst, hqm⟩ | ⟨hqpos, hfst⟩
      · rw [← hfst]
        exact hprop kv0 hkv0 q hqm
      · rw [hqpos, hfst, hkey]
    obtain ⟨ih1, ih2, ih3⟩ := clustersLoop_spec R rest (s.find pos).1
      (Correlation.setdefaultAppend acc (s.find pos).2 pos) fd hR2 snd hprop2
    rw [hstep]
    refine ⟨ih1, ih2, ?_⟩
    intro q hq
    rcases hq with ⟨kv, hkv, hqkv⟩ | hqrest
    · obtain ⟨kv', hkv', hq'⟩ := scov kv hkv q hqkv
      exact ih3 q (Or.inl ⟨kv', hkv', hq'⟩)
    · rcases List.mem_cons.mp hqrest with rfl | hq2
      · obtain ⟨kv', hkv', _, hposmem⟩ := snew
        exact ih3 q (Or.inl ⟨kv', hkv', hposmem⟩)
      · exact ih3 q (Or.inr hq2)

/-- Members of a `takeWhile` prefix are members of the list. -/
theorem mem_of_takeWhile {α : Type} (p : α → Bool) :
    ∀ (l : List α) (x : α), x ∈ l.takeWhile p → x ∈ l
  | [], x, h => by simp [List.takeWhile] at h
  | a :: as, x, h => by
    by_cases hp : p a = true
    · rw [List.takeWhile_cons_of_pos hp] at h
      rcases List.mem_cons.mp h with rfl | h2
      · exact List.mem_cons_self _ _
      · exact List.mem_cons_of_mem _ (mem_of_takeWhile p as x h2)
    · rw [List.takeWhile_cons_of_neg hp] at h
      simp at h

/-- Every candidate emitted by the nested scan refers to positions present in
the group. -/
theorem scanPairs_mem (W : Nat) :
    ∀ (g : List (Nat × Correlation.Alert)), ∀ cd ∈ Correlation.scanPairs W g,
      (∃ a ∈ g, cd.i = a.1) ∧ (∃ b ∈ g, cd.j = b.1)
  | [], cd, hcd => by simp [Correlation.scanPairs] at hcd
  | a :: rest, cd, hcd => by
    have hsplit : Correlation.scanPairs W (a :: rest) =
        Correlation.scanFrom W a rest ++ Correlation.scanPairs W rest := rfl
    rw [hsplit] at hcd
    rcases List.mem_append.mp hcd with h | h
    · unfold Correlation.scanFrom at h
      obtain ⟨b, hb, hcd2⟩ := List.mem_map.mp h
      have hbrest : b ∈ rest := mem_of_takeWhile _ _ _ hb
      subst hcd2
      exact ⟨⟨a, List.mem_cons_self _ _, rfl⟩,
        ⟨b, List.mem_cons_of_mem _ hbrest, rfl⟩⟩
    · obtain ⟨⟨x, hx, hx2⟩, ⟨y, hy, hy2⟩⟩ := scanPairs_mem W rest cd h
      exact ⟨⟨x, List.mem_cons_of_mem _ hx, hx2⟩,
        ⟨y, List.mem_cons_of_mem _ hy, hy2⟩⟩

/-- Candidate pairs index into the sorted threat frame. -/
theorem candidatePairs_bounds (W : Nat) (ts : List Correlation.Alert) :
    ∀ cd ∈ Correlation.candidatePairs W ts,
      cd.i < ts.length ∧ cd.j < ts.length := by
  intro cd hcd
  unfold Correlation.candidatePairs at hcd
  obtain ⟨l, _, hcd2⟩ := List.mem_bind.mp hcd
  obtain ⟨⟨a, ha, hia⟩, ⟨b, hb, hjb⟩⟩ := scanPairs_mem W _ cd hcd2
  have hamem : a ∈ ts.enum := List.mem_of_mem_filter ha
  have hbmem : b ∈ ts.enum := List.mem_of_mem_filter hb
  have ha1 : a.1 < ts.length := by
    have := List.mem_enum_iff_getElem?.mp hamem
    exact (List.getElem?_eq_some.mp this).1
  have hb1 : b.1 < ts.length := by
    have := List.mem_enum_iff_getElem?.mp hbmem
    exact (List.getElem?_eq_some.mp this).1
  rw [hia, hjb]
  exact ⟨ha1, hb1⟩

/-- The cluster map of `correlate_alerts`: keys are distinct, members carry
their entry's key as root, every position of the sorted threat frame is in
some entry, and both ends of every accepted pair share one root. -/
theorem clustersOf_spec (W : Nat) (ts : List Correlation.Alert)
    (score : String → ℚ) (threshold : ℚ) :
    ∃ R : Nat → Nat,
      ((Correlation.clustersOf W ts score threshold).map Prod.fst).Nodup ∧
        (∀ kv ∈ Correlation.clustersOf W ts score threshold, ∀ q ∈ kv.2,
          R q = kv.1) ∧
        (∀ q, q < ts.length →
          ∃ kv ∈ Correlation.clustersOf W ts score threshold, q ∈ kv.2) ∧
        (∀ cd ∈ Correlation.acceptedPairs W ts score threshold, R cd.i = R cd.j) := by
  have hbounds : ∀ pr ∈ (Correlation.acceptedPairs W ts score threshold).map
      (fun cd => (cd.i, cd.j)),
      pr.1 < (Correlation.UF.init ts.length).parent.length ∧
        pr.2 < (Correlation.UF.init ts.length).parent.length := by
    intro pr hpr
    obtain ⟨cd, hcd, hpr2⟩ := List.mem_map.mp hpr
    have hcand : cd ∈ Correlation.candidatePairs W ts := List.mem_of_mem_filter hcd
    have hb := candidatePairs_bounds W ts cd hcand
    rw [init_length, ← hpr2]
    exact hb
  obtain ⟨hFinv, hFlen, _, hFconn⟩ := processPairs_spec
    ((Correlation.acceptedPairs W ts score threshold).map (fun cd => (cd.i, cd.j)))
    (Correlation.UF.init ts.length) (init_inv ts.length) hbounds
  obtain ⟨h1, h2, h3⟩ := clustersLoop_spec
    (Correlation.rootU (Correlation.processPairs (Correlation.UF.init ts.length)
      ((Correlation.acceptedPairs W ts score threshold).map (fun cd => (cd.i, cd.j)))))
    (List.range ts.length)
    (Correlation.processPairs (Correlation.UF.init ts.length)
      ((Correlation.acceptedPairs W ts score threshold).map (fun cd => (cd.i, cd.j))))
    [] hFinv (fun j => rfl) (by simp) (by simp)
  refine ⟨_, h1, h2, ?_, ?_⟩
  · intro q hq
    exact h3 q (Or.inr (List.mem_range.mpr hq))
  · intro cd hcd
    exact hFconn (cd.i, cd.j) (List.mem_map_of_mem _ hcd)

/-- C2: if the pairs `(a, b)` and `(b, c)` are both accepted (score at or
above the threshold), then whether or not `(a, c)` was ever generated or
accepted, the clustering places `a`, `b` and `c` into exactly one common
cluster, and the returned incidents are exactly the per-cluster aggregates of
this cluster map (sorted). -/
theorem correlate_alerts_transitive (alerts : List Correlation.Alert) (W : Nat)
    (score : String → ℚ) (threshold : ℚ) (a b c : Nat)
    (hab : (a, b) ∈ (Correlation.acceptedPairs W (Correlation.threatsOf alerts)
      score threshold).map (fun cd => (cd.i, cd.j)))
    (hbc : (b, c) ∈ (Correlation.acceptedPairs W (Correlation.threatsOf alerts)
      score threshold).map (fun cd => (cd.i, cd.j))) :
    (∃! mems, mems ∈ (Correlation.clustersOf W (Correlation.threatsOf alerts)
        score threshold).map Prod.snd ∧ a ∈ mems ∧ b ∈ mems ∧ c ∈ mems) ∧
      Correlation.correlateAlerts alerts W score threshold =
        Correlation.sortIncidents
          ((Correlation.clustersOf W (Correlation.threatsOf alerts) score
            threshold).map
            (fun kv => Correlation.aggregateCluster W
              (kv.2.filterMap (Correlation.threatsOf alerts).get?))) := by
  obtain ⟨cdab, hcdab, hpab⟩ := List.mem_map.mp hab
  obtain ⟨cdbc, hcdbc, hpbc⟩ := List.mem_map.mp hbc
  have hia : cdab.i = a := (Prod.mk.injEq _ _ _ _).mp hpab |>.1
  have hjb : cdab.j = b := (Prod.mk.injEq _ _ _ _).mp hpab |>.2
  have hib : cdbc.i = b := (Prod.mk.injEq _ _ _ _).mp hpbc |>.1
  have hjc : cdbc.j = c := (Prod.mk.injEq _ _ _ _).mp hpbc |>.2
  have hcand_ab : cdab ∈ Correlation.candidatePairs W (Correlation.threatsOf alerts) :=
    List.mem_of_mem_filter hcdab
  have hcand_bc : cdbc ∈ Correlation.candidatePairs W (Correlation.threatsOf alerts) :=
    List.mem_of_mem_filter hcdbc
  have hb_ab := candidatePairs_bounds W _ cdab hcand_ab
  have hb_bc := candidatePairs_bounds W _ cdbc hcand_bc
  have halt : a < (Correlation.threatsOf alerts).length := hia ▸ hb_ab.1
  have hblt : b < (Correlation.threatsOf alerts).length := hjb ▸ hb_ab.2
  have hclt : c < (Correlation.threatsOf alerts).length := hjc ▸ hb_bc.2
  obtain ⟨R, hnd, hprop, hcov, hconn⟩ :=
    clustersOf_spec W (Correlation.threatsOf alerts) score threshold
  have hRab : R a = R b := by
    have := hconn cdab hcdab
    rw [hia, hjb] at this
    exact this
  have hRbc : R b = R c := by
    have := hconn cdbc hcdbc
    rw [hib, hjc] at this
    exact this
  obtain ⟨kva, hkva, hamem⟩ := hcov a halt
  obtain ⟨kvb, hkvb, hbmem⟩ := hcov b hblt
  obtain ⟨kvc, hkvc, hcmem⟩ := hcov c hclt
  have hka : R a = kva.1 := hprop kva hkva a hamem
  have hkb : R b = kvb.1 := hprop kvb hkvb b hbmem
  have hkc : R c = kvc.1 := hprop kvc hkvc c hcmem
  have hba : kvb = kva := nodup_key_entry _ hnd kvb hkvb kva hkva (by
    rw [← hkb, ← hka, hRab])
  have hca : kvc = kva := nodup_key_entry _ hnd kvc hkvc kva hkva (by
    rw [← hkc, ← hka, hRab, hRbc])
  constructor
  · refine ⟨kva.2, ⟨List.mem_map_of_mem Prod.snd hkva, hamem,
      hba ▸ hbmem, hca ▸ hcmem⟩, ?_⟩
    intro mems hmems
    obtain ⟨hmm, hma, _, _⟩ := hmems
    obtain ⟨kv, hkv, hsnd⟩ := List.mem_map.mp hmm
    have hkeq : R a = kv.1 := hprop kv hkv a (hsnd ▸ hma)
    have : kv = kva := nodup_key_entry _ hnd kv hkv kva hkva (by rw [← hkeq, ← hka])
    rw [← hsnd, this]
  · have hcands : Correlation.candidatePairs W (Correlation.threatsOf alerts) ≠ [] :=
      List.ne_nil_of_mem hcand_ab
    have hts : Correlation.threatsOf alerts ≠ [] := by
      intro h
      rw [h] at halt
      simp at halt
    have halerts : alerts ≠ [] := by
      intro h
      rw [h] at hts
      exact hts rfl
    show (if alerts = [] then [] else _) = _
    rw [if_neg halerts, if_neg hts, if_neg hcands]

/-- Witness for C2: three `brute_force` alerts at 0 s, 200 s and 400 s with a
300 s window — `(0,1)` and `(1,2)` are generated and accepted while `(0,2)`
is outside the window, and all three land in exactly one cluster. -/
theorem correlate_alerts_transitive_witness :
    ((0, 1) ∈ (Correlation.acceptedPairs 300
        (Correlation.threatsOf
          [Correlation.Alert.mk 0 "x" "u" "brute_force" 1 "MEDIUM",
           Correlation.Alert.mk 200 "y" "u" "brute_force" 1 "MEDIUM",
           Correlation.Alert.mk 400 "z" "u" "brute_force" 1 "MEDIUM"])
        (fun _ => (1 : ℚ)) 0).map (fun cd => (cd.i, cd.j))) ∧
      ((1, 2) ∈ (Correlation.acceptedPairs 300
        (Correlation.threatsOf
          [Correlation.Alert.mk 0 "x" "u" "brute_force" 1 "MEDIUM",
           Correlation.Alert.mk 200 "y" "u" "brute_force" 1 "MEDIUM",
           Correlation.Alert.mk 400 "z" "u" "brute_force" 1 "MEDIUM"])
        (fun _ => (1 : ℚ)) 0).map (fun cd => (cd.i, cd.j))) ∧
      ((∃! mems, mems ∈ (Correlation.clustersOf 300
          (Correlation.threatsOf
            [Correlation.Alert.mk 0 "x" "u" "brute_force" 1 "MEDIUM",
             Correlation.Alert.mk 200 "y" "u" "brute_force" 1 "MEDIUM",
             Correlation.Alert.mk 400 "z" "u" "brute_force" 1 "MEDIUM"])
          (fun _ => (1 : ℚ)) 0).map Prod.snd ∧
          0 ∈ mems ∧ 1 ∈ mems ∧ 2 ∈ mems) ∧
        Correlation.correlateAlerts
            [Correlation.Alert.mk 0 "x" "u" "brute_force" 1 "MEDIUM",
             Correlation.Alert.mk 200 "y" "u" "brute_force" 1 "MEDIUM",
             Correlation.Alert.mk 400 "z" "u" "brute_force" 1 "MEDIUM"]
            300 (fun _ => (1 : ℚ)) 0 =
          Correlation.sortIncidents
            ((Correlation.clustersOf 300
              (Correlation.threatsOf
                [Correlation.Alert.mk 0 "x" "u" "brute_force" 1 "MEDIUM",
                 Correlation.Alert.mk 200 "y" "u" "brute_force" 1 "MEDIUM",
                 Correlation.Alert.mk 400 "z" "u" "brute_force" 1 "MEDIUM"])
              (fun _ => (1 : ℚ)) 0).map
              (fun kv => Correlation.aggregateCluster 300
                (kv.2.filterMap (Correlation.threatsOf
                  [Correlation.Alert.mk 0 "x" "u" "brute_force" 1 "MEDIUM",
                   Correlation.Alert.mk 200 "y" "u" "brute_force" 1 "MEDIUM",
                   Correlation.Alert.mk 400 "z" "u" "brute_force" 1 "MEDIUM"]).get?)))) :=
  ⟨by decide, by decide,
    correlate_alerts_transitive
      [Correlation.Alert.mk 0 "x" "u" "brute_force" 1 "MEDIUM",
       Correlation.Alert.mk 200 "y" "u" "brute_force" 1 "MEDIUM",
       Correlation.Alert.mk 400 "z" "u" "brute_force" 1 "MEDIUM"]
      300 (fun _ => (1 : ℚ)) 0 0 1 2 (by decide) (by decide)⟩

/-- C1 failing input: a batch with exactly one non-"normal" alert. The
candidate-pair scan emits no pair, so `correlate_alerts` returns an empty
incident frame and the malware alert belongs to no incident — the partition
property does not hold for this batch. -/
theorem singleton_threat_dropped :
    Correlation.correlateAlerts
        [Correlation.Alert.mk 0 "1.2.3.4" "u" "malware" 1 "HIGH"] 300
        (fun _ => (1 : ℚ)) 0 = [] ∧
      ([Correlation.Alert.mk 0 "1.2.3.4" "u" "malware" 1 "HIGH"].filter
        (fun a => a.threat ≠ "normal")).length = 1 :=
  ⟨by decide, by decide⟩
